import Mathlib

/-!
Verification development for the task-scheduler core of the repository
(backend/core/task_queue/task_schema.py and backend/core/task_queue/queue_manager.py).

Modelling conventions (shallow embedding):
* Python wall-clock timestamps (datetime.now) are modelled by a logical clock
  (a Nat threaded through the state); each now() call returns the current clock
  value and advances it, so successive timestamps are strictly increasing.
* Python dicts keyed by task id are modelled as insertion-ordered association
  lists with last-write-wins assignment (setTask), exactly like dict update.
* The heapq priority queue is modelled as the multiset of its entries
  (a list); heappop extracts a minimal entry in the lexicographic tuple order
  Python uses for (-priority, timestamp, task_id) tuples.
* The schema-less Dict[str, Any] payloads (parameters, results) are modelled
  as association lists of strings; their contents are opaque to the scheduler.
* The persistence collaborator is None (the default configuration); all
  storage branches are the identity and are omitted.
* asyncio interleaving is modelled at the granularity of suspension points of
  the source: a dispatcher tick atomically pops ready entries and runs each
  spawned execution unit up to its first real await (the handler call), which
  is exactly the synchronous prefix of _execute_task; handler completions are
  separate events, one per in-flight execution unit.
-/

namespace TaskQueue

/-- Opaque schema-less payload map (Dict[str, Any] in the source). -/
abbrev AnyMap := List (String × String)

/-- Enum for possible task statuses (task_schema.TaskStatus). -/
inductive TaskStatus where
  | QUEUED
  | IN_PROGRESS
  | COMPLETED
  | FAILED
  | CANCELLED
deriving DecidableEq

/-- Schema for analytics tasks (task_schema.Task). Timestamps are logical
clock values (see module conventions). -/
structure Task where
  id : String
  user_id : String
  session_id : String
  created_at : Nat
  updated_at : Option Nat
  started_at : Option Nat
  completed_at : Option Nat
  status : TaskStatus
  task_type : String
  description : String
  parameters : AnyMap
  results : Option AnyMap
  error : Option String
  priority : Int
  estimated_duration : Option Nat
  dependencies : List String
  assigned_agent : Option String
deriving DecidableEq

/-- Task.update_status from task_schema.py lines 66-78: sets the status and
updated_at unconditionally, then stamps started_at (only when absent),
completed_at (always on COMPLETED), or the error field, consuming one clock
tick per datetime.now() call. Returns the updated task and clock. -/
def Task.update_status (t : Task) (new_status : TaskStatus)
    (error_message : Option String) (clock : Nat) : Task × Nat :=
  let t1 := { t with status := new_status, updated_at := some clock }
  let clock1 := clock + 1
  if new_status = TaskStatus.IN_PROGRESS ∧ t1.started_at = none then
    ({ t1 with started_at := some clock1 }, clock1 + 1)
  else if new_status = TaskStatus.COMPLETED then
    ({ t1 with completed_at := some clock1 }, clock1 + 1)
  else if new_status = TaskStatus.FAILED ∧ error_message.isSome then
    ({ t1 with error := error_message }, clock1)
  else
    (t1, clock1)

/-- Task.add_results from task_schema.py lines 80-83: store the results and
mark the task completed by calling update_status again. -/
def Task.add_results (t : Task) (results : AnyMap) (clock : Nat) : Task × Nat :=
  Task.update_status { t with results := some results } TaskStatus.COMPLETED none clock

/-- One entry of the heapq priority queue: the tuple
(-task.priority, datetime.now().timestamp(), task.id) built in
_add_to_priority_queue. -/
structure QueueEntry where
  negPriority : Int
  timestamp : Nat
  taskId : String
deriving DecidableEq

/-- Lexicographic comparison of queue entries, mirroring Python tuple
comparison for (-priority, timestamp, task_id). -/
def entryLe (a b : QueueEntry) : Bool :=
  decide (a.negPriority < b.negPriority) ||
    (decide (a.negPriority = b.negPriority) &&
      (decide (a.timestamp < b.timestamp) ||
        (decide (a.timestamp = b.timestamp) && decide (a.taskId ≤ b.taskId))))

/-- Strict lexicographic order on queue entries. -/
def entryLt (a b : QueueEntry) : Prop :=
  a.negPriority < b.negPriority ∨
    (a.negPriority = b.negPriority ∧
      (a.timestamp < b.timestamp ∨ (a.timestamp = b.timestamp ∧ a.taskId < b.taskId)))

/-- Select a minimal entry in the entryLe order. -/
def heapMinAux : QueueEntry → List QueueEntry → QueueEntry
  | best, [] => best
  | best, e :: rest => heapMinAux (if entryLe e best then e else best) rest

/-- heapq.heappop on the multiset model of the heap: remove and return a
minimal entry (Python's binary heap always pops a minimum of its contents). -/
def heappop : List QueueEntry → Option (QueueEntry × List QueueEntry)
  | [] => none
  | e :: rest =>
    let best := heapMinAux e rest
    some (best, (e :: rest).erase best)

/-- Association-list lookup for the task dict (first binding wins, as in a
dict with unique keys). -/
def lookupTask : List (String × Task) → String → Option Task
  | [], _ => none
  | (k, v) :: rest, id => if k = id then some v else lookupTask rest id

/-- Python dict assignment tasks[id] = t: replace the existing binding in
place, or append a new one. -/
def setTask : List (String × Task) → String → Task → List (String × Task)
  | [], id, t => [(id, t)]
  | (k, v) :: rest, id, t =>
    if k = id then (id, t) :: rest else (k, v) :: setTask rest id t

/-- Python dict assignment running_tasks[id] = task, tracking only the key
set: an existing key keeps its position, a new key is appended. -/
def insertId (l : List String) (id : String) : List String :=
  if id ∈ l then l else l ++ [id]

/-- In-memory state of TaskQueueManager (storage_connector = None).
completed_tasks keeps the ids appended to the bounded deque; task_handlers
keeps the registered task types (handler bodies live in the step relation). -/
structure TaskQueueManager where
  tasks : List (String × Task)
  task_queue : List QueueEntry
  running_tasks : List String
  completed_tasks : List String
  task_handlers : List String
  max_concurrent_tasks : Nat
  clock : Nat
deriving DecidableEq

/-- TaskQueueManager.get_task with no storage connector: in-memory lookup. -/
def get_task (m : TaskQueueManager) (task_id : String) : Option Task :=
  lookupTask m.tasks task_id

/-- TaskQueueManager._all_dependencies_met (lines 346-360). -/
def all_dependencies_met (m : TaskQueueManager) (task : Task) : Bool :=
  task.dependencies.all fun dep_id =>
    match lookupTask m.tasks dep_id with
    | some dep_task => decide (dep_task.status = TaskStatus.COMPLETED)
    | none => false

/-- TaskQueueManager._add_to_priority_queue (lines 362-372): push the entry
(-priority, now(), id); the heap is a multiset so push is cons. -/
def add_to_priority_queue (m : TaskQueueManager) (task : Task) : TaskQueueManager :=
  { m with
      task_queue := (⟨-task.priority, m.clock, task.id⟩ : QueueEntry) :: m.task_queue,
      clock := m.clock + 1 }

/-- The loop body of _check_dependent_tasks lines 341-344: push a dependent
task when all of its dependencies are met. -/
def push_if_ready (acc : TaskQueueManager) (task : Task) : TaskQueueManager :=
  if all_dependencies_met acc task then add_to_priority_queue acc task else acc

/-- TaskQueueManager._check_dependent_tasks (lines 324-344): snapshot the
QUEUED tasks depending on the finished id, then push each whose dependencies
are all met. -/
def check_dependent_tasks (m : TaskQueueManager) (completed_task_id : String) :
    TaskQueueManager :=
  let dependent_tasks :=
    (m.tasks.filter fun p =>
        decide (p.2.status = TaskStatus.QUEUED) &&
          decide (completed_task_id ∈ p.2.dependencies)).map Prod.snd
  dependent_tasks.foldl push_if_ready m

/-- The Python truthiness test: results is a non-None, non-empty dict. When it
holds on a COMPLETED update, task.add_results is invoked (queue_manager lines
205-206). -/
def apply_results (task : Task) (status : TaskStatus) (results : Option AnyMap)
    (clock : Nat) : Task × Nat :=
  match results with
  | some r =>
    if r ≠ [] ∧ status = TaskStatus.COMPLETED then Task.add_results task r clock
    else (task, clock)
  | none => (task, clock)

/-- The terminal-status test of queue_manager line 209. -/
def isTerminal (status : TaskStatus) : Bool :=
  decide (status = TaskStatus.COMPLETED) || decide (status = TaskStatus.FAILED) ||
    decide (status = TaskStatus.CANCELLED)

/-- The write stage of update_task_status (lines 197-206): apply
Task.update_status (and add_results when results accompany a COMPLETED
update) to the looked-up task and store the mutated task back; mutation in
place in Python is modelled by writing the updated task under its key. -/
def uts_write (m : TaskQueueManager) (task_id : String) (task : Task)
    (status : TaskStatus) (results : Option AnyMap) (error : Option String) :
    TaskQueueManager × Task :=
  let p1 := Task.update_status task status error m.clock
  let p2 := apply_results p1.1 status results p1.2
  ({ m with tasks := setTask m.tasks task_id p2.1, clock := p2.2 }, p2.1)

/-- TaskQueueManager.update_task_status (lines 182-221), storage = None:
look the task up, apply the write stage, and on a terminal status drop the
task from running_tasks, record it in the bounded completed deque and
re-check dependents. -/
def update_task_status (m : TaskQueueManager) (task_id : String) (status : TaskStatus)
    (results : Option AnyMap) (error : Option String) : TaskQueueManager × Option Task :=
  match get_task m task_id with
  | none => (m, none)
  | some task =>
    let w := uts_write m task_id task status results error
    if isTerminal status then
      let m2 := { w.1 with
          running_tasks := w.1.running_tasks.filter fun x => decide (x ≠ task_id),
          completed_tasks := (task_id :: w.1.completed_tasks).take 100 }
      (check_dependent_tasks m2 task_id, some w.2)
    else
      (w.1, some w.2)

/-- TaskQueueManager._rebuild_priority_queue (lines 374-382): keep only
entries whose task still exists with status QUEUED. -/
def rebuild_priority_queue (m : TaskQueueManager) : TaskQueueManager :=
  { m with
      task_queue := m.task_queue.filter fun e =>
        match lookupTask m.tasks e.taskId with
        | some task => decide (task.status = TaskStatus.QUEUED)
        | none => false }

/-- TaskQueueManager.cancel_task (lines 223-250). -/
def cancel_task (m : TaskQueueManager) (task_id : String) : TaskQueueManager × Bool :=
  match get_task m task_id with
  | none => (m, false)
  | some task =>
    if task.status = TaskStatus.QUEUED then
      let m1 := (update_task_status m task_id TaskStatus.CANCELLED none none).1
      (rebuild_priority_queue m1, true)
    else
      (m, false)

/-- TaskQueueManager.enqueue (lines 40-63), storage = None: store the task
unconditionally (dict assignment), then push it if it has no dependencies or
all of them are met. -/
def enqueue (m : TaskQueueManager) (task : Task) : TaskQueueManager × String :=
  let m1 := { m with tasks := setTask m.tasks task.id task }
  let m2 :=
    if task.dependencies = [] ∨ all_dependencies_met m1 task = true then
      add_to_priority_queue m1 task
    else m1
  (m2, task.id)

/-- The pop loop of _process_next_tasks (lines 262-270): while slots remain
and the queue is non-empty, pop the minimal entry and collect its task if it
still exists with status QUEUED. Fuel is the queue length (each iteration
removes one entry). -/
def process_loop : TaskQueueManager → Nat → List Task → Nat → TaskQueueManager × List Task
  | m, _, acc, 0 => (m, acc.reverse)
  | m, slots, acc, fuel + 1 =>
    if slots = 0 then (m, acc.reverse)
    else
      match heappop m.task_queue with
      | none => (m, acc.reverse)
      | some (e, rest) =>
        let m1 := { m with task_queue := rest }
        match get_task m1 e.taskId with
        | some task =>
          if task.status = TaskStatus.QUEUED then
            process_loop m1 (slots - 1) (task :: acc) fuel
          else process_loop m1 slots acc fuel
        | none => process_loop m1 slots acc fuel

/-- TaskQueueManager._process_next_tasks (lines 252-274), up to spawning the
execution units: compute the available slots and pop the tasks to start. -/
def process_next_tasks (m : TaskQueueManager) : TaskQueueManager × List Task :=
  let available_slots : Int := (m.max_concurrent_tasks : Int) - m.running_tasks.length
  if available_slots ≤ 0 ∨ m.task_queue = [] then (m, [])
  else process_loop m available_slots.toNat [] m.task_queue.length

/-- Handler resolution of _execute_task lines 290-293: the handler for the
task type, falling back to a registered "default" handler. -/
def has_handler (m : TaskQueueManager) (task_type : String) : Bool :=
  decide (task_type ∈ m.task_handlers) || decide ("default" ∈ m.task_handlers)

/-- Lines 285-287 of _execute_task: mark the task IN_PROGRESS and record it
in running_tasks. -/
def mark_in_progress (m : TaskQueueManager) (task : Task) : TaskQueueManager :=
  let m1 := (update_task_status m task.id TaskStatus.IN_PROGRESS none none).1
  { m1 with running_tasks := insertId m1.running_tasks task.id }

/-- Lines 295-303 of _execute_task: no handler (and no default) exists, so
fail the task with the fixed message. -/
def fail_no_handler (m : TaskQueueManager) (task : Task) : TaskQueueManager :=
  (update_task_status m task.id TaskStatus.FAILED none
    (some ("No handler registered for task type: " ++ task.task_type))).1

/-- The synchronous prefix of _execute_task (lines 283-303): mark the task
IN_PROGRESS, record it in running_tasks, and resolve the handler; when no
handler (and no default) exists, fail the task immediately. Returns true when
an execution unit proceeds to await the handler. -/
def execute_task_prelude (m : TaskQueueManager) (task : Task) : TaskQueueManager × Bool :=
  let m2 := mark_in_progress m task
  if has_handler m2 task.task_type then (m2, true)
  else (fail_no_handler m2 task, false)

/-- The completion half of _execute_task (lines 305-322): the awaited handler
either returns results (task COMPLETED) or raises (exception caught, task
FAILED with the stringified exception inside the recorded message). The
function is total: no outcome escapes to the dispatcher. -/
def execute_task_finish (m : TaskQueueManager) (task_id : String)
    (outcome : Except String AnyMap) : TaskQueueManager :=
  match outcome with
  | Except.ok results =>
    (update_task_status m task_id TaskStatus.COMPLETED (some results) none).1
  | Except.error e =>
    let msg := "Error executing task " ++ task_id ++ ": " ++ e
    (update_task_status m task_id TaskStatus.FAILED none (some msg)).1

/-- Run the preludes of the spawned execution units in order, collecting the
ids whose unit reached the handler await (the in-flight units). -/
def dispatch_all : TaskQueueManager → List Task → TaskQueueManager × List String
  | m, [] => (m, [])
  | m, task :: rest =>
    let p := execute_task_prelude m task
    let q := dispatch_all p.1 rest
    (q.1, (if p.2 then [task.id] else []) ++ q.2)

/-- Scheduler state: the manager plus the multiset of in-flight execution
units (ids whose handler invocation has been spawned and not yet finished). -/
structure SchedState where
  mgr : TaskQueueManager
  units : List String
deriving DecidableEq

/-- One dispatcher tick: _process_next_tasks followed by the synchronous
prefixes of the spawned _execute_task units. -/
def tickS (s : SchedState) : SchedState :=
  let p := process_next_tasks s.mgr
  let q := dispatch_all p.1 p.2
  { mgr := q.1, units := s.units ++ q.2 }

/-- A freshly initialised manager (TaskQueueManager.__init__) with the given
concurrency budget and the handler types registered at startup. -/
def initMgr (max_concurrent_tasks : Nat) (handlers : List String) : TaskQueueManager :=
  { tasks := [], task_queue := [], running_tasks := [], completed_tasks := [],
    task_handlers := handlers, max_concurrent_tasks := max_concurrent_tasks, clock := 0 }

/-- Initial scheduler state. -/
def initState (max_concurrent_tasks : Nat) (handlers : List String) : SchedState :=
  { mgr := initMgr max_concurrent_tasks handlers, units := [] }

/-- The scheduler's observable operations, interleaved arbitrarily:
submissions of QUEUED tasks (task_creator always submits status QUEUED),
dispatcher ticks, handler completions of in-flight units (successful or
raising), and cancellation requests. -/
inductive Step : SchedState → SchedState → Prop
  | submit (s : SchedState) (task : Task) (hq : task.status = TaskStatus.QUEUED) :
      Step s { mgr := (enqueue s.mgr task).1, units := s.units }
  | tick (s : SchedState) : Step s (tickS s)
  | finish (s : SchedState) (id : String) (outcome : Except String AnyMap)
      (hu : id ∈ s.units) :
      Step s { mgr := execute_task_finish s.mgr id outcome, units := s.units.erase id }
  | cancel (s : SchedState) (id : String) :
      Step s { mgr := (cancel_task s.mgr id).1, units := s.units }

/-- Reachability from a fresh manager under any interleaving of the
scheduler's operations. -/
def Reachable (n : Nat) (hs : List String) (s : SchedState) : Prop :=
  Relation.ReflTransGen Step (initState n hs) s

/-- The scheduler's operations restricted to duplicate-free submissions:
every submitted task id is fresh (not yet in the store). -/
inductive StepDF : SchedState → SchedState → Prop
  | submit (s : SchedState) (task : Task) (hq : task.status = TaskStatus.QUEUED)
      (hfresh : get_task s.mgr task.id = none) :
      StepDF s { mgr := (enqueue s.mgr task).1, units := s.units }
  | tick (s : SchedState) : StepDF s (tickS s)
  | finish (s : SchedState) (id : String) (outcome : Except String AnyMap)
      (hu : id ∈ s.units) :
      StepDF s { mgr := execute_task_finish s.mgr id outcome, units := s.units.erase id }
  | cancel (s : SchedState) (id : String) :
      StepDF s { mgr := (cancel_task s.mgr id).1, units := s.units }

/-- Reachability under duplicate-free submissions. -/
def ReachableDF (n : Nat) (hs : List String) (s : SchedState) : Prop :=
  Relation.ReflTransGen StepDF (initState n hs) s

/-- Number of tasks whose status is IN_PROGRESS. -/
def countInProgress (m : TaskQueueManager) : Nat :=
  (m.tasks.filter fun p => decide (p.2.status = TaskStatus.IN_PROGRESS)).length

/-- Number of writes Task.update_status performs to the completed_at field:
one exactly when the COMPLETED branch of the elif chain is taken. -/
def Task.update_status_completed_writes (t : Task) (new_status : TaskStatus) : Nat :=
  if new_status = TaskStatus.IN_PROGRESS ∧ t.started_at = none then 0
  else if new_status = TaskStatus.COMPLETED then 1
  else 0

/-- Number of writes to completed_at performed by one
TaskQueueManager.update_task_status call: the direct Task.update_status call
plus, when results are attached to a COMPLETED update, the second
Task.update_status call made inside Task.add_results. -/
def update_task_status_completed_writes (m : TaskQueueManager) (task_id : String)
    (status : TaskStatus) (results : Option AnyMap) (error : Option String) : Nat :=
  match get_task m task_id with
  | none => 0
  | some task =>
    let w1 := task.update_status_completed_writes status
    let p1 := Task.update_status task status error m.clock
    let w2 :=
      match results with
      | some r =>
        if r ≠ [] ∧ status = TaskStatus.COMPLETED then
          Task.update_status_completed_writes { p1.1 with results := some r }
            TaskStatus.COMPLETED
        else 0
      | none => 0
    w1 + w2

/-- A minimal task literal used by concrete scenarios. -/
def baseTask (id task_type : String) (priority : Int) (dependencies : List String)
    (status : TaskStatus) : Task :=
  { id := id, user_id := "u", session_id := "s", created_at := 0, updated_at := none,
    started_at := none, completed_at := none, status := status, task_type := task_type,
    description := "", parameters := [], results := none, error := none,
    priority := priority, estimated_duration := none, dependencies := dependencies,
    assigned_agent := none }

/-! ### Association-list lemmas for the task dict -/

theorem lookupTask_setTask_self (l : List (String × Task)) (id : String) (t : Task) :
    lookupTask (setTask l id t) id = some t := by
  induction l with
  | nil => simp [setTask, lookupTask]
  | cons p rest ih =>
    obtain ⟨k, v⟩ := p
    by_cases hk : k = id
    · simp [setTask, hk, lookupTask]
    · simp [setTask, hk, lookupTask, ih]

theorem lookupTask_setTask_other (l : List (String × Task)) (id id' : String) (t : Task)
    (h : id' ≠ id) : lookupTask (setTask l id t) id' = lookupTask l id' := by
  induction l with
  | nil => simp [setTask, lookupTask, Ne.symm h]
  | cons p rest ih =>
    obtain ⟨k, v⟩ := p
    by_cases hk : k = id
    · subst hk
      simp [setTask, lookupTask, Ne.symm h]
    · by_cases hk' : k = id'
      · simp [setTask, hk, lookupTask, hk', h]
      · simp [setTask, hk, lookupTask, hk', ih]

theorem mem_of_lookupTask_eq_some {l : List (String × Task)} {id : String} {t : Task}
    (h : lookupTask l id = some t) : (id, t) ∈ l := by
  induction l with
  | nil => simp [lookupTask] at h
  | cons p rest ih =>
    obtain ⟨k, v⟩ := p
    by_cases hk : k = id
    · subst hk
      simp [lookupTask] at h
      simp [h]
    · simp [lookupTask, hk] at h
      exact List.mem_cons_of_mem _ (ih h)

theorem lookupTask_eq_some_of_mem {l : List (String × Task)} {id : String} {t : Task}
    (hnd : (l.map Prod.fst).Nodup) (h : (id, t) ∈ l) : lookupTask l id = some t := by
  induction l with
  | nil => simp at h
  | cons p rest ih =>
    obtain ⟨k, v⟩ := p
    simp only [List.map_cons, List.nodup_cons] at hnd
    rcases List.mem_cons.mp h with h1 | h1
    · obtain ⟨hk, ht⟩ := Prod.mk.injEq .. ▸ h1
      simp [lookupTask, hk.symm, ht]
    · have hk : k ≠ id := by
        intro hk
        subst hk
        exact hnd.1 (List.mem_map.mpr ⟨(k, t), h1, rfl⟩)
      simp [lookupTask, hk, ih hnd.2 h1]

theorem lookupTask_isSome_of_mem_keys {l : List (String × Task)} {id : String}
    (h : id ∈ l.map Prod.fst) : ∃ t, lookupTask l id = some t := by
  induction l with
  | nil => simp at h
  | cons p rest ih =>
    obtain ⟨k, v⟩ := p
    by_cases hk : k = id
    · exact ⟨v, by simp [lookupTask, hk]⟩
    · simp only [List.map_cons, List.mem_cons] at h
      rcases h with h | h


      · exact absurd h.symm hk
      · obtain ⟨t, ht⟩ := ih h
        exact ⟨t, by simp [lookupTask, hk, ht]⟩

theorem lookupTask_none_of_not_mem_keys {l : List (String × Task)} {id : String}
    (h : id ∉ l.map Prod.fst) : lookupTask l id = none := by
  induction l with
  | nil => simp [lookupTask]
  | cons p rest ih =>
    obtain ⟨k, v⟩ := p
    simp only [List.map_cons, List.mem_cons, not_or] at h
    simp [lookupTask, Ne.symm h.1, ih h.2]

theorem setTask_map_fst_of_mem (l : List (String × Task)) (id : String) (t : Task)
    (h : id ∈ l.map Prod.fst) : (setTask l id t).map Prod.fst = l.map Prod.fst := by
  induction l with
  | nil => simp at h
  | cons p rest ih =>
    obtain ⟨k, v⟩ := p
    by_cases hk : k = id
    · simp [setTask, hk]
    · simp only [List.map_cons, List.mem_cons] at h
      rcases h with h | h
      · exact absurd h.symm hk
      · simp [setTask, hk, ih h]

theorem setTask_map_fst_of_not_mem (l : List (String × Task)) (id : String) (t : Task)
    (h : id ∉ l.map Prod.fst) : (setTask l id t).map Prod.fst = l.map Prod.fst ++ [id] := by
  induction l with
  | nil => simp [setTask]
  | cons p rest ih =>
    obtain ⟨k, v⟩ := p
    simp only [List.map_cons, List.mem_cons, not_or] at h
    simp [setTask, Ne.symm h.1, ih h.2]

theorem setTask_keys_nodup (l : List (String × Task)) (id : String) (t : Task)
    (h : (l.map Prod.fst).Nodup) : ((setTask l id t).map Prod.fst).Nodup := by
  by_cases hm : id ∈ l.map Prod.fst
  · rw [setTask_map_fst_of_mem l id t hm]
    exact h
  · rw [setTask_map_fst_of_not_mem l id t hm]
    simp [List.nodup_append, h, hm]

theorem mem_setTask {l : List (String × Task)} {id : String} {t : Task}
    {p : String × Task} (hnd : (l.map Prod.fst).Nodup) (h : p ∈ setTask l id t) :
    p = (id, t) ∨ (p ∈ l ∧ p.1 ≠ id) := by
  induction l with
  | nil =>
    simp [setTask] at h
    exact Or.inl h
  | cons q rest ih =>
    obtain ⟨k, v⟩ := q
    simp only [List.map_cons, List.nodup_cons] at hnd
    by_cases hk : k = id
    · subst hk
      simp [setTask] at h
      rcases h with h | h
      · exact Or.inl h
      · right
        refine ⟨List.mem_cons_of_mem _ h, ?_⟩
        intro hp
        exact hnd.1 (List.mem_map.mpr ⟨p, h, hp⟩)
    · simp only [setTask, if_neg hk, List.mem_cons] at h
      rcases h with h | h
      · subst h
        exact Or.inr ⟨List.mem_cons_self _ _, hk⟩
      · rcases ih hnd.2 h with h1 | h1
        · exact Or.inl h1
        · exact Or.inr ⟨List.mem_cons_of_mem _ h1.1, h1.2⟩

theorem mem_insertId_self (l : List String) (id : String) : id ∈ insertId l id := by
  unfold insertId
  split
  · assumption
  · simp

theorem mem_insertId_of_mem {l : List String} {x : String} (id : String) (h : x ∈ l) :
    x ∈ insertId l id := by
  unfold insertId
  split
  · exact h
  · simp [h]

theorem insertId_length_le (l : List String) (id : String) :
    (insertId l id).length ≤ l.length + 1 := by
  unfold insertId
  split
  · omega
  · simp

/-! ### Heap-order lemmas -/

theorem entryLe_refl (a : QueueEntry) : entryLe a a = true := by
  simp [entryLe]

theorem entryLe_total (a b : QueueEntry) : entryLe a b = true ∨ entryLe b a = true := by
  simp only [entryLe, Bool.or_eq_true, Bool.and_eq_true, decide_eq_true_eq]
  rcases lt_trichotomy a.negPriority b.negPriority with h | h | h
  · exact Or.inl (Or.inl h)
  · rcases lt_trichotomy a.timestamp b.timestamp with h2 | h2 | h2
    · exact Or.inl (Or.inr ⟨h, Or.inl h2⟩)
    · rcases le_total a.taskId b.taskId with h3 | h3
      · exact Or.inl (Or.inr ⟨h, Or.inr ⟨h2, h3⟩⟩)
      · exact Or.inr (Or.inr ⟨h.symm, Or.inr ⟨h2.symm, h3⟩⟩)
    · exact Or.inr (Or.inr ⟨h.symm, Or.inl h2⟩)
  · exact Or.inr (Or.inl h)

theorem entryLe_trans {a b c : QueueEntry} (hab : entryLe a b = true)
    (hbc : entryLe b c = true) : entryLe a c = true := by
  simp only [entryLe, Bool.or_eq_true, Bool.and_eq_true, decide_eq_true_eq] at *
  rcases hab with h1 | ⟨h1, h1'⟩ <;> rcases hbc with h2 | ⟨h2, h2'⟩
  · exact Or.inl (h1.trans h2)
  · exact Or.inl (h2 ▸ h1)
  · exact Or.inl (h1 ▸ h2)
  · refine Or.inr ⟨h1.trans h2, ?_⟩
    rcases h1' with h3 | ⟨h3, h3'⟩ <;> rcases h2' with h4 | ⟨h4, h4'⟩
    · exact Or.inl (h3.trans h4)
    · exact Or.inl (h4 ▸ h3)
    · exact Or.inl (h3 ▸ h4)
    · exact Or.inr ⟨h3.trans h4, h3'.trans h4'⟩

theorem entryLt_not_le {a b : QueueEntry} (h : entryLt a b) : entryLe b a = false := by
  by_contra hc
  have hle : entryLe b a = true := by
    cases hba : entryLe b a
    · exact absurd hba hc
    · rfl
  simp only [entryLe, Bool.or_eq_true, Bool.and_eq_true, decide_eq_true_eq] at hle
  rcases h with h | ⟨h, h'⟩
  · rcases hle with h2 | ⟨h2, _⟩
    · exact absurd (h.trans h2) (lt_irrefl _)
    · exact absurd (h2 ▸ h) (lt_irrefl _)
  · rcases hle with h2 | ⟨_, h2'⟩
    · exact absurd (h ▸ h2) (lt_irrefl _)
    · rcases h' with h3 | ⟨h3, h3'⟩
      · rcases h2' with h4 | ⟨h4, _⟩
        · exact absurd (h3.trans h4) (lt_irrefl _)
        · exact absurd (h4 ▸ h3) (lt_irrefl _)
      · rcases h2' with h4 | ⟨h4, h4'⟩
        · exact absurd (h3 ▸ h4) (lt_irrefl _)
        · exact absurd (lt_of_lt_of_le h3' h4') (lt_irrefl _)

theorem heapMinAux_mem (best : QueueEntry) (l : List QueueEntry) :
    heapMinAux best l = best ∨ heapMinAux best l ∈ l := by
  induction l generalizing best with
  | nil => exact Or.inl rfl
  | cons e rest ih =>
    simp only [heapMinAux]
    split
    · rcases ih e with h | h
      · right
        rw [h]
        exact List.mem_cons_self _ _
      · exact Or.inr (List.mem_cons_of_mem _ h)
    · rcases ih best with h | h
      · exact Or.inl h
      · exact Or.inr (List.mem_cons_of_mem _ h)

theorem heapMinAux_le (best : QueueEntry) (l : List QueueEntry) :
    entryLe (heapMinAux best l) best = true ∧
      ∀ x ∈ l, entryLe (heapMinAux best l) x = true := by
  induction l generalizing best with
  | nil => exact ⟨entryLe_refl best, by simp⟩
  | cons e rest ih =>
    simp only [heapMinAux]
    split
    · rename_i hle
      obtain ⟨h1, h2⟩ := ih e
      refine ⟨entryLe_trans h1 hle, ?_⟩
      intro x hx
      rcases List.mem_cons.mp hx with hx | hx
      · exact hx ▸ h1
      · exact h2 x hx
    · rename_i hnle
      obtain ⟨h1, h2⟩ := ih best
      refine ⟨h1, ?_⟩
      intro x hx
      rcases List.mem_cons.mp hx with hx | hx
      · subst hx
        rcases entryLe_total x best with h | h
        · exact absurd h hnle
        · exact entryLe_trans h1 h
      · exact h2 x hx

theorem heappop_min {q : List QueueEntry} {e : QueueEntry} {rest : List QueueEntry}
    (h : heappop q = some (e, rest)) : ∀ x ∈ q, entryLe e x = true := by
  match q with
  | [] => simp [heappop] at h
  | a :: l =>
    simp only [heappop, Option.some.injEq, Prod.mk.injEq] at h
    obtain ⟨he, _⟩ := h
    intro x hx
    obtain ⟨h1, h2⟩ := heapMinAux_le a l
    rcases List.mem_cons.mp hx with hx | hx
    · exact he ▸ hx ▸ h1
    · exact he ▸ h2 x hx

theorem heappop_mem {q : List QueueEntry} {e : QueueEntry} {rest : List QueueEntry}
    (h : heappop q = some (e, rest)) : e ∈ q := by
  match q with
  | [] => simp [heappop] at h
  | a :: l =>
    simp only [heappop, Option.some.injEq, Prod.mk.injEq] at h
    obtain ⟨he, _⟩ := h
    subst he
    rcases heapMinAux_mem a l with h1 | h1
    · rw [h1]
      exact List.mem_cons_self _ _
    · exact List.mem_cons_of_mem _ h1

theorem heappop_rest_eq {q : List QueueEntry} {e : QueueEntry} {rest : List QueueEntry}
    (h : heappop q = some (e, rest)) : rest = q.erase e := by
  match q with
  | [] => simp [heappop] at h
  | a :: l =>
    simp only [heappop, Option.some.injEq, Prod.mk.injEq] at h
    obtain ⟨he, hr⟩ := h
    exact hr.symm.trans (by rw [he])

theorem heappop_rest_sublist {q : List QueueEntry} {e : QueueEntry} {rest : List QueueEntry}
    (h : heappop q = some (e, rest)) : List.Sublist rest q := by
  rw [heappop_rest_eq h]
  exact List.erase_sublist _ _

theorem heappop_rest_length {q : List QueueEntry} {e : QueueEntry} {rest : List QueueEntry}
    (h : heappop q = some (e, rest)) : rest.length = q.length - 1 := by
  rw [heappop_rest_eq h]
  exact List.length_erase_of_mem (heappop_mem h)

/-! ### Invariant predicates on the manager state -/

/-- The keys of the task dict are distinct (a Python dict guarantees this). -/
def keysND (m : TaskQueueManager) : Prop := (m.tasks.map Prod.fst).Nodup

/-- Every stored task is keyed by its own id (tasks are always stored under
task.id in the source). -/
def keyIdP (m : TaskQueueManager) : Prop :=
  ∀ p ∈ m.tasks, (Prod.snd p).id = Prod.fst p

/-- All dependencies of the task exist in the store with status COMPLETED. -/
def depsCompleted (m : TaskQueueManager) (t : Task) : Prop :=
  ∀ dep ∈ t.dependencies,
    ∃ d, get_task m dep = some d ∧ d.status = TaskStatus.COMPLETED

theorem all_dependencies_met_iff (m : TaskQueueManager) (t : Task) :
    all_dependencies_met m t = true ↔ depsCompleted m t := by
  simp only [all_dependencies_met, List.all_eq_true, depsCompleted, get_task]
  constructor
  · intro h dep hdep
    have h1 := h dep hdep
    cases hl : lookupTask m.tasks dep with
    | none => rw [hl] at h1; simp at h1
    | some d =>
      rw [hl] at h1
      simp only [decide_eq_true_eq] at h1
      exact ⟨d, rfl, h1⟩
  · intro h dep hdep
    obtain ⟨d, hd, hst⟩ := h dep hdep
    rw [hd]
    simp [hst]

theorem all_dependencies_met_congr {m1 m2 : TaskQueueManager} (h : m1.tasks = m2.tasks)
    (t : Task) : all_dependencies_met m1 t = all_dependencies_met m2 t := by
  simp [all_dependencies_met, h]

/-! ### add_to_priority_queue and check_dependent_tasks -/

theorem aptq_tasks (m : TaskQueueManager) (t : Task) :
    (add_to_priority_queue m t).tasks = m.tasks := rfl

theorem aptq_running (m : TaskQueueManager) (t : Task) :
    (add_to_priority_queue m t).running_tasks = m.running_tasks := rfl

theorem aptq_handlers (m : TaskQueueManager) (t : Task) :
    (add_to_priority_queue m t).task_handlers = m.task_handlers := rfl

theorem aptq_max (m : TaskQueueManager) (t : Task) :
    (add_to_priority_queue m t).max_concurrent_tasks = m.max_concurrent_tasks := rfl

theorem aptq_completed (m : TaskQueueManager) (t : Task) :
    (add_to_priority_queue m t).completed_tasks = m.completed_tasks := rfl

theorem aptq_queue (m : TaskQueueManager) (t : Task) :
    (add_to_priority_queue m t).task_queue =
      (⟨-t.priority, m.clock, t.id⟩ : QueueEntry) :: m.task_queue := rfl

theorem push_if_ready_tasks (m : TaskQueueManager) (t : Task) :
    (push_if_ready m t).tasks = m.tasks := by
  unfold push_if_ready
  split <;> rfl

theorem foldl_push_tasks (L : List Task) (m : TaskQueueManager) :
    (L.foldl push_if_ready m).tasks = m.tasks := by
  induction L generalizing m with
  | nil => rfl
  | cons t rest ih =>
    rw [List.foldl_cons, ih, push_if_ready_tasks]

theorem foldl_push_running (L : List Task) (m : TaskQueueManager) :
    (L.foldl push_if_ready m).running_tasks = m.running_tasks := by
  induction L generalizing m with
  | nil => rfl
  | cons t rest ih =>
    rw [List.foldl_cons, ih]
    unfold push_if_ready
    split <;> rfl

theorem foldl_push_handlers (L : List Task) (m : TaskQueueManager) :
    (L.foldl push_if_ready m).task_handlers = m.task_handlers := by
  induction L generalizing m with
  | nil => rfl
  | cons t rest ih =>
    rw [List.foldl_cons, ih]
    unfold push_if_ready
    split <;> rfl

theorem foldl_push_max (L : List Task) (m : TaskQueueManager) :
    (L.foldl push_if_ready m).max_concurrent_tasks = m.max_concurrent_tasks := by
  induction L generalizing m with
  | nil => rfl
  | cons t rest ih =>
    rw [List.foldl_cons, ih]
    unfold push_if_ready
    split <;> rfl

theorem foldl_push_completed (L : List Task) (m : TaskQueueManager) :
    (L.foldl push_if_ready m).completed_tasks = m.completed_tasks := by
  induction L generalizing m with
  | nil => rfl
  | cons t rest ih =>
    rw [List.foldl_cons, ih]
    unfold push_if_ready
    split <;> rfl

theorem foldl_push_queue (L : List Task) (m : TaskQueueManager) :
    ∃ pushed : List QueueEntry,
      (L.foldl push_if_ready m).task_queue = pushed ++ m.task_queue ∧
      List.Sublist (pushed.map QueueEntry.taskId) (L.map Task.id).reverse ∧
      ∀ e ∈ pushed, ∃ t, t ∈ L ∧ e.taskId = t.id ∧ all_dependencies_met m t = true := by
  induction L generalizing m with
  | nil => exact ⟨[], by simp⟩
  | cons t rest ih =>
    rw [List.foldl_cons]
    obtain ⟨pushedR, hq, hsub, hmem⟩ := ih (push_if_ready m t)
    by_cases hr : all_dependencies_met m t = true
    · refine ⟨pushedR ++ [(⟨-t.priority, m.clock, t.id⟩ : QueueEntry)], ?_, ?_, ?_⟩
      · rw [hq]
        simp only [push_if_ready, if_pos hr, aptq_queue, List.append_assoc,
          List.singleton_append]
      · simp only [List.map_append, List.map_cons, List.map_nil, List.reverse_cons]
        exact List.Sublist.append hsub (List.Sublist.refl _)
      · intro e he
        rcases List.mem_append.mp he with he | he
        · obtain ⟨t', ht', hid, hmet⟩ := hmem e he
          refine ⟨t', List.mem_cons_of_mem _ ht', hid, ?_⟩
          rw [all_dependencies_met_congr (push_if_ready_tasks m t) t'] at hmet
          exact hmet
        · simp only [List.mem_singleton] at he
          subst he
          exact ⟨t, List.mem_cons_self _ _, rfl, hr⟩
    · have hpir : push_if_ready m t = m := by
        unfold push_if_ready
        simp [hr]
      rw [hpir] at hq hmem ⊢
      refine ⟨pushedR, hq, ?_, ?_⟩
      · simp only [List.map_cons, List.reverse_cons]
        exact hsub.trans (List.sublist_append_left _ _)
      · intro e he
        obtain ⟨t', ht', hid, hmet⟩ := hmem e he
        exact ⟨t', List.mem_cons_of_mem _ ht', hid, hmet⟩

theorem foldl_push_no_ready (L : List Task) (m : TaskQueueManager)
    (h : ∀ t ∈ L, all_dependencies_met m t = false) : L.foldl push_if_ready m = m := by
  induction L with
  | nil => rfl
  | cons t rest ih =>
    have h1 : push_if_ready m t = m := by
      unfold push_if_ready
      simp [h t (List.mem_cons_self _ _)]
    rw [List.foldl_cons, h1]
    exact ih fun t' ht' => h t' (List.mem_cons_of_mem _ ht')

theorem cdt_tasks (m : TaskQueueManager) (d : String) :
    (check_dependent_tasks m d).tasks = m.tasks := foldl_push_tasks _ _

theorem cdt_running (m : TaskQueueManager) (d : String) :
    (check_dependent_tasks m d).running_tasks = m.running_tasks := foldl_push_running _ _

theorem cdt_handlers (m : TaskQueueManager) (d : String) :
    (check_dependent_tasks m d).task_handlers = m.task_handlers := foldl_push_handlers _ _

theorem cdt_max (m : TaskQueueManager) (d : String) :
    (check_dependent_tasks m d).max_concurrent_tasks = m.max_concurrent_tasks :=
  foldl_push_max _ _

theorem cdt_completed (m : TaskQueueManager) (d : String) :
    (check_dependent_tasks m d).completed_tasks = m.completed_tasks := foldl_push_completed _ _

/-- The dependent list of _check_dependent_tasks. -/
def dependentList (m : TaskQueueManager) (d : String) : List Task :=
  (m.tasks.filter fun p =>
      decide (p.2.status = TaskStatus.QUEUED) && decide (d ∈ p.2.dependencies)).map Prod.snd

theorem cdt_eq_foldl (m : TaskQueueManager) (d : String) :
    check_dependent_tasks m d = (dependentList m d).foldl push_if_ready m := rfl

theorem mem_dependentList {m : TaskQueueManager} {d : String} {t : Task}
    (h : t ∈ dependentList m d) :
    ∃ k, (k, t) ∈ m.tasks ∧ t.status = TaskStatus.QUEUED ∧ d ∈ t.dependencies := by
  simp only [dependentList, List.mem_map, List.mem_filter, Bool.and_eq_true,
    decide_eq_true_eq] at h
  obtain ⟨⟨k, t'⟩, ⟨hmem, hst, hdep⟩, ht⟩ := h
  subst ht
  exact ⟨k, hmem, hst, hdep⟩

theorem check_dependent_tasks_spec (m : TaskQueueManager) (d : String) :
    ∃ pushed : List QueueEntry,
      (check_dependent_tasks m d).task_queue = pushed ++ m.task_queue ∧
      (keysND m → keyIdP m → (pushed.map QueueEntry.taskId).Nodup) ∧
      ∀ e ∈ pushed, ∃ k t, (k, t) ∈ m.tasks ∧ e.taskId = t.id ∧
        t.status = TaskStatus.QUEUED ∧ d ∈ t.dependencies ∧
        all_dependencies_met m t = true := by
  obtain ⟨pushed, hq, hsub, hmem⟩ := foldl_push_queue (dependentList m d) m
  refine ⟨pushed, hq, ?_, ?_⟩
  · intro hknd hkid
    have hids : (dependentList m d).map Task.id =
        (m.tasks.filter fun p =>
          decide (p.2.status = TaskStatus.QUEUED) && decide (d ∈ p.2.dependencies)).map
          Prod.fst := by
      simp only [dependentList, List.map_map]
      refine List.map_congr_left ?_
      intro p hp
      exact hkid p (List.mem_of_mem_filter hp)
    have hnd2 : ((dependentList m d).map Task.id).Nodup := by
      rw [hids]
      exact hknd.sublist (List.Sublist.map _ (List.filter_sublist _))
    exact (hsub.nodup (List.nodup_reverse.mpr hnd2))
  · intro e he
    obtain ⟨t, htL, hid, hmet⟩ := hmem e he
    obtain ⟨k, hkm, hst, hdep⟩ := mem_dependentList htL
    exact ⟨k, t, hkm, hid, hst, hdep, hmet⟩

theorem check_dependent_tasks_no_push (m : TaskQueueManager) (d : String)
    (h : ∀ t, get_task m d = some t → ¬ t.status = TaskStatus.COMPLETED) :
    check_dependent_tasks m d = m := by
  rw [cdt_eq_foldl]
  refine foldl_push_no_ready _ _ ?_
  intro t ht
  obtain ⟨k, hkm, hst, hdep⟩ := mem_dependentList ht
  cases hmet : all_dependencies_met m t with
  | false => rfl
  | true =>
    exfalso
    obtain ⟨dd, hdd, hddc⟩ := (all_dependencies_met_iff m t).mp hmet d hdep
    exact h dd hdd hddc

/-! ### update_task_status characterization -/

theorem update_status_fields (t : Task) (st : TaskStatus) (e : Option String) (c : Nat) :
    ((t.update_status st e c).1).status = st ∧
      ((t.update_status st e c).1).id = t.id ∧
      ((t.update_status st e c).1).dependencies = t.dependencies ∧
      ((t.update_status st e c).1).priority = t.priority ∧
      ((t.update_status st e c).1).created_at = t.created_at ∧
      ((t.update_status st e c).1).task_type = t.task_type := by
  unfold Task.update_status
  dsimp only
  split_ifs <;> simp

theorem apply_results_fields (t : Task) (st : TaskStatus) (res : Option AnyMap) (c : Nat)
    (hst : t.status = st) :
    ((apply_results t st res c).1).status = st ∧
      ((apply_results t st res c).1).id = t.id ∧
      ((apply_results t st res c).1).dependencies = t.dependencies ∧
      ((apply_results t st res c).1).priority = t.priority ∧
      ((apply_results t st res c).1).created_at = t.created_at ∧
      ((apply_results t st res c).1).task_type = t.task_type := by
  cases res with
  | none => simp [apply_results, hst]
  | some r =>
    simp only [apply_results]
    split_ifs with hcond
    · have h := update_status_fields { t with results := some r } TaskStatus.COMPLETED none c
      unfold Task.add_results
      refine ⟨?_, ?_, ?_, ?_, ?_, ?_⟩
      · rw [hcond.2]
        exact h.1
      · exact h.2.1
      · exact h.2.2.1
      · exact h.2.2.2.1
      · exact h.2.2.2.2.1
      · exact h.2.2.2.2.2
    · simp [hst]

theorem uts_write_status (m : TaskQueueManager) (id : String) (t : Task) (st : TaskStatus)
    (res : Option AnyMap) (err : Option String) :
    (uts_write m id t st res err).2.status = st ∧
      (uts_write m id t st res err).2.id = t.id ∧
      (uts_write m id t st res err).2.dependencies = t.dependencies ∧
      (uts_write m id t st res err).2.priority = t.priority ∧
      (uts_write m id t st res err).2.created_at = t.created_at ∧
      (uts_write m id t st res err).2.task_type = t.task_type := by
  have h1 := update_status_fields t st err m.clock
  have h2 := apply_results_fields (t.update_status st err m.clock).1 st res
    (t.update_status st err m.clock).2 h1.1
  unfold uts_write
  simp only
  refine ⟨h2.1, ?_, ?_, ?_, ?_, ?_⟩
  · rw [h2.2.1, h1.2.1]
  · rw [h2.2.2.1, h1.2.2.1]
  · rw [h2.2.2.2.1, h1.2.2.2.1]
  · rw [h2.2.2.2.2.1, h1.2.2.2.2.1]
  · rw [h2.2.2.2.2.2, h1.2.2.2.2.2]

theorem uts_write_tasks (m : TaskQueueManager) (id : String) (t : Task) (st : TaskStatus)
    (res : Option AnyMap) (err : Option String) :
    (uts_write m id t st res err).1.tasks =
      setTask m.tasks id (uts_write m id t st res err).2 := rfl

theorem uts_write_queue (m : TaskQueueManager) (id : String) (t : Task) (st : TaskStatus)
    (res : Option AnyMap) (err : Option String) :
    (uts_write m id t st res err).1.task_queue = m.task_queue := rfl

theorem uts_write_running (m : TaskQueueManager) (id : String) (t : Task) (st : TaskStatus)
    (res : Option AnyMap) (err : Option String) :
    (uts_write m id t st res err).1.running_tasks = m.running_tasks := rfl

theorem uts_term_eq (m : TaskQueueManager) (id : String) (st : TaskStatus)
    (res : Option AnyMap) (err : Option String) {t : Task} (hg : get_task m id = some t)
    (hterm : isTerminal st = true) :
    update_task_status m id st res err =
      (check_dependent_tasks
        { m with
            tasks := setTask m.tasks id (uts_write m id t st res err).2,
            clock := (uts_write m id t st res err).1.clock,
            running_tasks := m.running_tasks.filter fun x => decide (x ≠ id),
            completed_tasks := (id :: m.completed_tasks).take 100 } id,
        some (uts_write m id t st res err).2) := by
  unfold update_task_status
  rw [hg]
  simp only [hterm, if_true]
  rfl

theorem uts_nonterm_eq (m : TaskQueueManager) (id : String) (st : TaskStatus)
    (res : Option AnyMap) (err : Option String) {t : Task} (hg : get_task m id = some t)
    (hterm : isTerminal st = false) :
    update_task_status m id st res err =
      ((uts_write m id t st res err).1, some (uts_write m id t st res err).2) := by
  unfold update_task_status
  rw [hg]
  simp only [hterm, if_false, Bool.false_eq_true]

theorem uts_not_found (m : TaskQueueManager) (id : String) (st : TaskStatus)
    (res : Option AnyMap) (err : Option String) (h : get_task m id = none) :
    update_task_status m id st res err = (m, none) := by
  unfold update_task_status
  rw [h]

theorem uts_tasks_of_found (m : TaskQueueManager) (id : String) (st : TaskStatus)
    (res : Option AnyMap) (err : Option String) {t : Task} (hg : get_task m id = some t) :
    ∃ t', (update_task_status m id st res err).1.tasks = setTask m.tasks id t' ∧
      (update_task_status m id st res err).2 = some t' ∧
      t'.status = st ∧ t'.id = t.id ∧ t'.dependencies = t.dependencies := by
  have hw := uts_write_status m id t st res err
  cases hterm : isTerminal st with
  | true =>
    rw [uts_term_eq m id st res err hg hterm]
    refine ⟨(uts_write m id t st res err).2, ?_, rfl, hw.1, hw.2.1, hw.2.2.1⟩
    rw [cdt_tasks]
  | false =>
    rw [uts_nonterm_eq m id st res err hg hterm]
    exact ⟨(uts_write m id t st res err).2, uts_write_tasks m id t st res err, rfl,
      hw.1, hw.2.1, hw.2.2.1⟩

theorem uts_lookup_self (m : TaskQueueManager) (id : String) (st : TaskStatus)
    (res : Option AnyMap) (err : Option String) {t : Task} (hg : get_task m id = some t) :
    ∃ t', get_task (update_task_status m id st res err).1 id = some t' ∧
      t'.status = st ∧ t'.id = t.id ∧ t'.dependencies = t.dependencies := by
  obtain ⟨t', hT, _, h1, h2, h3⟩ := uts_tasks_of_found m id st res err hg
  refine ⟨t', ?_, h1, h2, h3⟩
  rw [get_task, hT, lookupTask_setTask_self]

theorem uts_lookup_other (m : TaskQueueManager) (id id' : String) (st : TaskStatus)
    (res : Option AnyMap) (err : Option String) (hne : id' ≠ id) :
    get_task (update_task_status m id st res err).1 id' = get_task m id' := by
  cases hg : get_task m id with
  | none => rw [uts_not_found m id st res err hg]
  | some t =>
    obtain ⟨t', hT, _, _, _, _⟩ := uts_tasks_of_found m id st res err hg
    rw [get_task, hT, lookupTask_setTask_other _ _ _ _ hne]
    rfl

theorem uts_handlers (m : TaskQueueManager) (id : String) (st : TaskStatus)
    (res : Option AnyMap) (err : Option String) :
    (update_task_status m id st res err).1.task_handlers = m.task_handlers := by
  cases hg : get_task m id with
  | none => rw [uts_not_found m id st res err hg]
  | some t =>
    cases hterm : isTerminal st with
    | true =>
      rw [uts_term_eq m id st res err hg hterm]
      rw [cdt_handlers]
    | false =>
      rw [uts_nonterm_eq m id st res err hg hterm]
      rfl

theorem uts_max (m : TaskQueueManager) (id : String) (st : TaskStatus)
    (res : Option AnyMap) (err : Option String) :
    (update_task_status m id st res err).1.max_concurrent_tasks = m.max_concurrent_tasks := by
  cases hg : get_task m id with
  | none => rw [uts_not_found m id st res err hg]
  | some t =>
    cases hterm : isTerminal st with
    | true =>
      rw [uts_term_eq m id st res err hg hterm]
      rw [cdt_max]
    | false =>
      rw [uts_nonterm_eq m id st res err hg hterm]
      rfl

theorem uts_running_nonterminal (m : TaskQueueManager) (id : String) (st : TaskStatus)
    (res : Option AnyMap) (err : Option String) (h : isTerminal st = false) :
    (update_task_status m id st res err).1.running_tasks = m.running_tasks := by
  cases hg : get_task m id with
  | none => rw [uts_not_found m id st res err hg]
  | some t =>
    rw [uts_nonterm_eq m id st res err hg h]
    rfl

theorem uts_running_terminal (m : TaskQueueManager) (id : String) (st : TaskStatus)
    (res : Option AnyMap) (err : Option String) (h : isTerminal st = true) {t : Task}
    (hg : get_task m id = some t) :
    (update_task_status m id st res err).1.running_tasks =
      m.running_tasks.filter fun x => decide (x ≠ id) := by
  rw [uts_term_eq m id st res err hg h]
  rw [cdt_running]

theorem uts_queue_nonterminal (m : TaskQueueManager) (id : String) (st : TaskStatus)
    (res : Option AnyMap) (err : Option String) (h : isTerminal st = false) :
    (update_task_status m id st res err).1.task_queue = m.task_queue := by
  cases hg : get_task m id with
  | none => rw [uts_not_found m id st res err hg]
  | some t =>
    rw [uts_nonterm_eq m id st res err hg h]
    rfl

theorem uts_queue_terminal_no_push (m : TaskQueueManager) (id : String) (st : TaskStatus)
    (res : Option AnyMap) (err : Option String) (hst : ¬ st = TaskStatus.COMPLETED) :
    (update_task_status m id st res err).1.task_queue = m.task_queue := by
  cases hterm : isTerminal st with
  | false => exact uts_queue_nonterminal m id st res err hterm
  | true =>
    cases hg : get_task m id with
    | none => rw [uts_not_found m id st res err hg]
    | some t =>
      rw [uts_term_eq m id st res err hg hterm]
      rw [check_dependent_tasks_no_push]
      intro t'' hg''
      rw [get_task] at hg''
      rw [lookupTask_setTask_self] at hg''
      have ht'' : t'' = (uts_write m id t st res err).2 := by
        exact (Option.some.injEq .. ▸ hg'').symm
      rw [ht'', (uts_write_status m id t st res err).1]
      exact hst

/-! ### enqueue, cancel_task, rebuild_priority_queue -/

theorem enqueue_lookup_self (m : TaskQueueManager) (task : Task) :
    get_task (enqueue m task).1 task.id = some task := by
  unfold enqueue get_task
  dsimp only
  split
  · rw [aptq_tasks]
    exact lookupTask_setTask_self _ _ _
  · exact lookupTask_setTask_self _ _ _

theorem enqueue_lookup_other (m : TaskQueueManager) (task : Task) (id' : String)
    (hne : id' ≠ task.id) : get_task (enqueue m task).1 id' = get_task m id' := by
  unfold enqueue get_task
  dsimp only
  split
  · rw [aptq_tasks]
    exact lookupTask_setTask_other _ _ _ _ hne
  · exact lookupTask_setTask_other _ _ _ _ hne

theorem enqueue_running (m : TaskQueueManager) (task : Task) :
    (enqueue m task).1.running_tasks = m.running_tasks := by
  unfold enqueue
  dsimp only
  split
  · rw [aptq_running]
  · rfl

theorem enqueue_handlers (m : TaskQueueManager) (task : Task) :
    (enqueue m task).1.task_handlers = m.task_handlers := by
  unfold enqueue
  dsimp only
  split
  · rw [aptq_handlers]
  · rfl

theorem enqueue_max (m : TaskQueueManager) (task : Task) :
    (enqueue m task).1.max_concurrent_tasks = m.max_concurrent_tasks := by
  unfold enqueue
  dsimp only
  split
  · rw [aptq_max]
  · rfl

theorem enqueue_tasks (m : TaskQueueManager) (task : Task) :
    (enqueue m task).1.tasks = setTask m.tasks task.id task := by
  unfold enqueue
  dsimp only
  split
  · rw [aptq_tasks]
  · rfl

theorem enqueue_queue (m : TaskQueueManager) (task : Task) :
    (enqueue m task).1.task_queue = m.task_queue ∨
      ((enqueue m task).1.task_queue =
        (⟨-task.priority, m.clock, task.id⟩ : QueueEntry) :: m.task_queue ∧
        (task.dependencies = [] ∨
          all_dependencies_met { m with tasks := setTask m.tasks task.id task } task = true)) := by
  unfold enqueue
  dsimp only
  split
  · rename_i hcond
    right
    exact ⟨rfl, hcond⟩
  · left
    rfl

theorem enqueue_keysND (m : TaskQueueManager) (task : Task) (h : keysND m) :
    keysND (enqueue m task).1 := by
  unfold keysND
  rw [enqueue_tasks]
  exact setTask_keys_nodup _ _ _ h

theorem enqueue_keyIdP (m : TaskQueueManager) (task : Task) (hnd : keysND m)
    (h : keyIdP m) : keyIdP (enqueue m task).1 := by
  unfold keyIdP
  rw [enqueue_tasks]
  intro p hp
  rcases mem_setTask hnd hp with h1 | h1
  · rw [h1]
  · exact h p h1.1

theorem uts_keysND (m : TaskQueueManager) (id : String) (st : TaskStatus)
    (res : Option AnyMap) (err : Option String) (h : keysND m) :
    keysND (update_task_status m id st res err).1 := by
  cases hg : get_task m id with
  | none =>
    rw [uts_not_found m id st res err hg]
    exact h
  | some t =>
    obtain ⟨t', hT, _, _, _, _⟩ := uts_tasks_of_found m id st res err hg
    unfold keysND
    rw [hT]
    exact setTask_keys_nodup _ _ _ h

theorem uts_keyIdP (m : TaskQueueManager) (id : String) (st : TaskStatus)
    (res : Option AnyMap) (err : Option String) (hnd : keysND m) (h : keyIdP m) :
    keyIdP (update_task_status m id st res err).1 := by
  cases hg : get_task m id with
  | none =>
    rw [uts_not_found m id st res err hg]
    exact h
  | some t =>
    obtain ⟨t', hT, _, _, hid, _⟩ := uts_tasks_of_found m id st res err hg
    unfold keyIdP
    rw [hT]
    intro p hp
    rcases mem_setTask hnd hp with h1 | h1
    · rw [h1]
      dsimp only
      rw [hid]
      exact h (id, t) (mem_of_lookupTask_eq_some hg)
    · exact h p h1.1

theorem rebuild_tasks (m : TaskQueueManager) :
    (rebuild_priority_queue m).tasks = m.tasks := rfl

theorem rebuild_running (m : TaskQueueManager) :
    (rebuild_priority_queue m).running_tasks = m.running_tasks := rfl

theorem rebuild_handlers (m : TaskQueueManager) :
    (rebuild_priority_queue m).task_handlers = m.task_handlers := rfl

theorem rebuild_max (m : TaskQueueManager) :
    (rebuild_priority_queue m).max_concurrent_tasks = m.max_concurrent_tasks := rfl

theorem rebuild_queue_sublist (m : TaskQueueManager) :
    List.Sublist (rebuild_priority_queue m).task_queue m.task_queue :=
  List.filter_sublist _

theorem cancel_not_found (m : TaskQueueManager) (id : String)
    (h : get_task m id = none) : cancel_task m id = (m, false) := by
  unfold cancel_task
  rw [h]

theorem cancel_not_queued (m : TaskQueueManager) (id : String) {t : Task}
    (hg : get_task m id = some t) (h : ¬ t.status = TaskStatus.QUEUED) :
    cancel_task m id = (m, false) := by
  unfold cancel_task
  rw [hg]
  simp [h]

theorem cancel_queued (m : TaskQueueManager) (id : String) {t : Task}
    (hg : get_task m id = some t) (h : t.status = TaskStatus.QUEUED) :
    cancel_task m id =
      (rebuild_priority_queue (update_task_status m id TaskStatus.CANCELLED none none).1,
        true) := by
  unfold cancel_task
  rw [hg]
  simp [h]

/-! ### process_loop and process_next_tasks -/

theorem erase_ids_not_mem {q : List QueueEntry} {e : QueueEntry}
    (hnd : (q.map QueueEntry.taskId).Nodup) (he : e ∈ q) :
    e.taskId ∉ (q.erase e).map QueueEntry.taskId := by
  obtain ⟨l1, l2, hne, heq, her⟩ := List.exists_erase_eq he
  subst heq
  rw [her]
  simp only [List.map_append, List.map_cons, List.nodup_append, List.nodup_cons] at hnd
  intro hmem
  rcases List.mem_append.mp (List.map_append .. ▸ hmem) with h1 | h1
  · exact hnd.2.2 h1 (List.mem_cons_self _ _)
  · exact hnd.2.1.1 h1

theorem process_loop_fst (fuel : Nat) (m : TaskQueueManager) (slots : Nat)
    (acc : List Task) :
    ∃ q', (process_loop m slots acc fuel).1 = { m with task_queue := q' } ∧
      List.Sublist q' m.task_queue := by
  induction fuel generalizing m slots acc with
  | zero => exact ⟨m.task_queue, rfl, List.Sublist.refl _⟩
  | succ fuel ih =>
    by_cases hs : slots = 0
    · simp only [process_loop, hs, if_true]
      exact ⟨m.task_queue, rfl, List.Sublist.refl _⟩
    · simp only [process_loop, hs, if_false]
      cases hpop : heappop m.task_queue with
      | none => exact ⟨m.task_queue, rfl, List.Sublist.refl _⟩
      | some pr =>
        obtain ⟨e, rest⟩ := pr
        simp only
        have hrest : List.Sublist rest m.task_queue := heappop_rest_sublist hpop
        cases hg : get_task { m with task_queue := rest } e.taskId with
        | some task =>
          by_cases hst : task.status = TaskStatus.QUEUED
          · simp only [hg, hst, if_true]
            obtain ⟨q', h1, h2⟩ := ih { m with task_queue := rest } (slots - 1) (task :: acc)
            exact ⟨q', h1, h2.trans hrest⟩
          · simp only [hg, hst, if_false]
            obtain ⟨q', h1, h2⟩ := ih { m with task_queue := rest } slots acc
            exact ⟨q', h1, h2.trans hrest⟩
        | none =>
          simp only [hg]
          obtain ⟨q', h1, h2⟩ := ih { m with task_queue := rest } slots acc
          exact ⟨q', h1, h2.trans hrest⟩

theorem process_loop_len (fuel : Nat) (m : TaskQueueManager) (slots : Nat)
    (acc : List Task) :
    (process_loop m slots acc fuel).2.length ≤ acc.length + slots := by
  induction fuel generalizing m slots acc with
  | zero => simp [process_loop]
  | succ fuel ih =>
    by_cases hs : slots = 0
    · simp [process_loop, hs]
    · simp only [process_loop, hs, if_false]
      cases hpop : heappop m.task_queue with
      | none => simp
      | some pr =>
        obtain ⟨e, rest⟩ := pr
        simp only
        cases hg : get_task { m with task_queue := rest } e.taskId with
        | some task =>
          by_cases hst : task.status = TaskStatus.QUEUED
          · simp only [hg, hst, if_true]
            have h := ih { m with task_queue := rest } (slots - 1) (task :: acc)
            simp only [List.length_cons] at h
            omega
          · simp only [hg, hst, if_false]
            exact ih { m with task_queue := rest } slots acc
        | none =>
          simp only [hg]
          exact ih { m with task_queue := rest } slots acc

theorem process_loop_mem (fuel : Nat) (m : TaskQueueManager) (slots : Nat)
    (acc : List Task) (hkid : keyIdP m) :
    ∀ t ∈ (process_loop m slots acc fuel).2, t ∈ acc ∨
      (get_task m t.id = some t ∧ t.status = TaskStatus.QUEUED ∧
        ∃ e ∈ m.task_queue, e.taskId = t.id) := by
  induction fuel generalizing m slots acc with
  | zero =>
    intro t ht
    simp only [process_loop, List.mem_reverse] at ht
    exact Or.inl ht
  | succ fuel ih =>
    intro t ht
    by_cases hs : slots = 0
    · simp only [process_loop, hs, if_true, List.mem_reverse] at ht
      exact Or.inl ht
    · simp only [process_loop, hs, if_false] at ht
      cases hpop : heappop m.task_queue with
      | none =>
        rw [hpop] at ht
        simp only [List.mem_reverse] at ht
        exact Or.inl ht
      | some pr =>
        obtain ⟨e, rest⟩ := pr
        rw [hpop] at ht
        simp only at ht
        have hrest : List.Sublist rest m.task_queue := heappop_rest_sublist hpop
        have hkid1 : keyIdP { m with task_queue := rest } := hkid
        cases hg : get_task { m with task_queue := rest } e.taskId with
        | some task =>
          have htid : task.id = e.taskId :=
            hkid (e.taskId, task) (mem_of_lookupTask_eq_some hg)
          by_cases hst : task.status = TaskStatus.QUEUED
          · rw [hg] at ht
            simp only [hst, if_true] at ht
            rcases ih { m with task_queue := rest } (slots - 1) (task :: acc) hkid1 t ht with
              h1 | h1
            · rcases List.mem_cons.mp h1 with h2 | h2
              · subst h2
                right
                refine ⟨by rw [htid]; exact hg, hst, e, heappop_mem hpop, htid.symm⟩
              · exact Or.inl h2
            · obtain ⟨hga, hsta, ea, hea, heid⟩ := h1
              exact Or.inr ⟨hga, hsta, ea, hrest.mem hea, heid⟩
          · rw [hg] at ht
            simp only [hst, if_false] at ht
            rcases ih { m with task_queue := rest } slots acc hkid1 t ht with h1 | h1
            · exact Or.inl h1
            · obtain ⟨hga, hsta, ea, hea, heid⟩ := h1
              exact Or.inr ⟨hga, hsta, ea, hrest.mem hea, heid⟩
        | none =>
          rw [hg] at ht
          rcases ih { m with task_queue := rest } slots acc hkid1 t ht with h1 | h1
          · exact Or.inl h1
          · obtain ⟨hga, hsta, ea, hea, heid⟩ := h1
            exact Or.inr ⟨hga, hsta, ea, hrest.mem hea, heid⟩

theorem process_loop_nodup (fuel : Nat) (m : TaskQueueManager) (slots : Nat)
    (acc : List Task) (hq : (m.task_queue.map QueueEntry.taskId).Nodup)
    (hacc : (acc.map Task.id).Nodup)
    (hdisj : ∀ t ∈ acc, t.id ∉ m.task_queue.map QueueEntry.taskId)
    (hkid : keyIdP m) :
    (((process_loop m slots acc fuel).2).map Task.id).Nodup := by
  induction fuel generalizing m slots acc with
  | zero =>
    simp only [process_loop, List.map_reverse, List.nodup_reverse]
    exact hacc
  | succ fuel ih =>
    by_cases hs : slots = 0
    · simp only [process_loop, hs, if_true, List.map_reverse, List.nodup_reverse]
      exact hacc
    · simp only [process_loop, hs, if_false]
      cases hpop : heappop m.task_queue with
      | none =>
        simp only [List.map_reverse, List.nodup_reverse]
        exact hacc
      | some pr =>
        obtain ⟨e, rest⟩ := pr
        simp only
        have hrest : List.Sublist rest m.task_queue := heappop_rest_sublist hpop
        have hqrest : (rest.map QueueEntry.taskId).Nodup :=
          hq.sublist (List.Sublist.map _ hrest)
        have hbest : e.taskId ∉ rest.map QueueEntry.taskId := by
          rw [heappop_rest_eq hpop]
          exact erase_ids_not_mem hq (heappop_mem hpop)
        cases hg : get_task { m with task_queue := rest } e.taskId with
        | some task =>
          have htid : task.id = e.taskId :=
            hkid (e.taskId, task) (mem_of_lookupTask_eq_some hg)
          by_cases hst : task.status = TaskStatus.QUEUED
          · simp only [hg, hst, if_true]
            refine ih { m with task_queue := rest } (slots - 1) (task :: acc) hqrest ?_ ?_ hkid
            · simp only [List.map_cons, List.nodup_cons]
              refine ⟨?_, hacc⟩
              intro hmem
              obtain ⟨t', ht', hid'⟩ := List.mem_map.mp hmem
              have := hdisj t' ht'
              rw [hid', htid] at this
              exact this (List.mem_map.mpr ⟨e, heappop_mem hpop, rfl⟩)
            · intro t' ht'
              rcases List.mem_cons.mp ht' with h2 | h2
              · subst h2
                rw [htid]
                exact hbest
              · intro hmem
                exact hdisj t' h2 ((List.Sublist.map _ hrest).mem hmem)
          · simp only [hg, hst, if_false]
            refine ih { m with task_queue := rest } slots acc hqrest hacc ?_ hkid
            intro t' ht' hmem
            exact hdisj t' ht' ((List.Sublist.map _ hrest).mem hmem)
        | none =>
          simp only [hg]
          refine ih { m with task_queue := rest } slots acc hqrest hacc ?_ hkid
          intro t' ht' hmem
          exact hdisj t' ht' ((List.Sublist.map _ hrest).mem hmem)

theorem pnt_fst (m : TaskQueueManager) :
    ∃ q', (process_next_tasks m).1 = { m with task_queue := q' } ∧
      List.Sublist q' m.task_queue := by
  unfold process_next_tasks
  dsimp only
  split
  · exact ⟨m.task_queue, rfl, List.Sublist.refl _⟩
  · exact process_loop_fst _ _ _ _

theorem pnt_len (m : TaskQueueManager) :
    (process_next_tasks m).2 = [] ∨
      m.running_tasks.length + (process_next_tasks m).2.length ≤
        m.max_concurrent_tasks := by
  unfold process_next_tasks
  dsimp only
  split
  · exact Or.inl rfl
  · rename_i hcond
    right
    have h := process_loop_len m.task_queue.length m
      ((m.max_concurrent_tasks : Int) - m.running_tasks.length).toNat []
    simp only [List.length_nil, Nat.zero_add] at h
    push_neg at hcond
    have hpos : (0 : Int) < (m.max_concurrent_tasks : Int) - m.running_tasks.length :=
      hcond.1
    omega

theorem pnt_mem (m : TaskQueueManager) (hkid : keyIdP m) :
    ∀ t ∈ (process_next_tasks m).2, get_task m t.id = some t ∧
      t.status = TaskStatus.QUEUED ∧ ∃ e ∈ m.task_queue, e.taskId = t.id := by
  unfold process_next_tasks
  dsimp only
  split
  · intro t ht
    simp at ht
  · intro t ht
    rcases process_loop_mem m.task_queue.length m _ [] hkid t ht with h1 | h1
    · simp at h1
    · exact h1

theorem pnt_nodup (m : TaskQueueManager) (hq : (m.task_queue.map QueueEntry.taskId).Nodup)
    (hkid : keyIdP m) : (((process_next_tasks m).2).map Task.id).Nodup := by
  unfold process_next_tasks
  dsimp only
  split
  · simp
  · exact process_loop_nodup m.task_queue.length m _ [] hq (by simp) (by simp) hkid

/-! ### execute_task_prelude and dispatch_all -/

theorem isTerminal_IN_PROGRESS : isTerminal TaskStatus.IN_PROGRESS = false := rfl

theorem isTerminal_FAILED : isTerminal TaskStatus.FAILED = true := rfl

theorem isTerminal_COMPLETED : isTerminal TaskStatus.COMPLETED = true := rfl

theorem isTerminal_CANCELLED : isTerminal TaskStatus.CANCELLED = true := rfl

theorem has_handler_congr {m1 m2 : TaskQueueManager}
    (h : m1.task_handlers = m2.task_handlers) (ty : String) :
    has_handler m1 ty = has_handler m2 ty := by
  unfold has_handler
  rw [h]

theorem get_task_set_running (m : TaskQueueManager) (r : List String) (id : String) :
    get_task { m with running_tasks := r } id = get_task m id := rfl

theorem mip_lookup_other (m : TaskQueueManager) (task : Task) (id' : String)
    (hne : id' ≠ task.id) :
    get_task (mark_in_progress m task) id' = get_task m id' := by
  unfold mark_in_progress
  dsimp only
  rw [get_task_set_running]
  exact uts_lookup_other m task.id id' TaskStatus.IN_PROGRESS none none hne

theorem mip_lookup_self (m : TaskQueueManager) (task : Task) {t0 : Task}
    (hg : get_task m task.id = some t0) :
    ∃ t1, get_task (mark_in_progress m task) task.id = some t1 ∧
      t1.status = TaskStatus.IN_PROGRESS ∧ t1.id = t0.id ∧
      t1.dependencies = t0.dependencies := by
  obtain ⟨t1, hl, h1, h2, h3⟩ := uts_lookup_self m task.id TaskStatus.IN_PROGRESS none none hg
  exact ⟨t1, by rw [mark_in_progress, get_task_set_running]; exact hl, h1, h2, h3⟩

theorem mip_queue (m : TaskQueueManager) (task : Task) :
    (mark_in_progress m task).task_queue = m.task_queue := by
  unfold mark_in_progress
  dsimp only
  exact uts_queue_nonterminal m task.id TaskStatus.IN_PROGRESS none none
    isTerminal_IN_PROGRESS

theorem mip_handlers (m : TaskQueueManager) (task : Task) :
    (mark_in_progress m task).task_handlers = m.task_handlers := by
  unfold mark_in_progress
  dsimp only
  exact uts_handlers m task.id TaskStatus.IN_PROGRESS none none

theorem mip_max (m : TaskQueueManager) (task : Task) :
    (mark_in_progress m task).max_concurrent_tasks = m.max_concurrent_tasks := by
  unfold mark_in_progress
  dsimp only
  exact uts_max m task.id TaskStatus.IN_PROGRESS none none

theorem mip_running (m : TaskQueueManager) (task : Task) :
    (mark_in_progress m task).running_tasks = insertId m.running_tasks task.id := by
  unfold mark_in_progress
  dsimp only
  rw [uts_running_nonterminal m task.id TaskStatus.IN_PROGRESS none none
    isTerminal_IN_PROGRESS]

theorem fnh_lookup_other (m : TaskQueueManager) (task : Task) (id' : String)
    (hne : id' ≠ task.id) :
    get_task (fail_no_handler m task) id' = get_task m id' := by
  unfold fail_no_handler
  exact uts_lookup_other m task.id id' TaskStatus.FAILED none _ hne

theorem fnh_lookup_self (m : TaskQueueManager) (task : Task) {t1 : Task}
    (hg : get_task m task.id = some t1) :
    ∃ t2, get_task (fail_no_handler m task) task.id = some t2 ∧
      t2.status = TaskStatus.FAILED ∧ t2.id = t1.id ∧
      t2.dependencies = t1.dependencies := by
  obtain ⟨t2, hl, h1, h2, h3⟩ := uts_lookup_self m task.id TaskStatus.FAILED none _ hg
  exact ⟨t2, hl, h1, h2, h3⟩

theorem fnh_queue (m : TaskQueueManager) (task : Task) :
    (fail_no_handler m task).task_queue = m.task_queue := by
  unfold fail_no_handler
  exact uts_queue_terminal_no_push m task.id TaskStatus.FAILED none _
    (by intro h; exact TaskStatus.noConfusion h)

theorem fnh_handlers (m : TaskQueueManager) (task : Task) :
    (fail_no_handler m task).task_handlers = m.task_handlers :=
  uts_handlers m task.id TaskStatus.FAILED none _

theorem fnh_max (m : TaskQueueManager) (task : Task) :
    (fail_no_handler m task).max_concurrent_tasks = m.max_concurrent_tasks :=
  uts_max m task.id TaskStatus.FAILED none _

theorem fnh_running_mem (m : TaskQueueManager) (task : Task) (x : String)
    (hx : x ∈ m.running_tasks) (hne : x ≠ task.id) :
    x ∈ (fail_no_handler m task).running_tasks := by
  unfold fail_no_handler
  cases hg : get_task m task.id with
  | none =>
    rw [uts_not_found m task.id TaskStatus.FAILED none _ hg]
    exact hx
  | some t =>
    rw [uts_running_terminal m task.id TaskStatus.FAILED none _ isTerminal_FAILED hg]
    simp only [List.mem_filter, decide_eq_true_eq]
    exact ⟨hx, hne⟩

theorem fnh_running_len (m : TaskQueueManager) (task : Task) :
    (fail_no_handler m task).running_tasks.length ≤ m.running_tasks.length := by
  unfold fail_no_handler
  cases hg : get_task m task.id with
  | none =>
    rw [uts_not_found m task.id TaskStatus.FAILED none _ hg]
  | some t =>
    rw [uts_running_terminal m task.id TaskStatus.FAILED none _ isTerminal_FAILED hg]
    exact List.length_filter_le _ _

theorem prelude_queue (m : TaskQueueManager) (task : Task) :
    (execute_task_prelude m task).1.task_queue = m.task_queue := by
  unfold execute_task_prelude
  dsimp only
  split
  · exact mip_queue m task
  · rw [fnh_queue, mip_queue]

theorem prelude_handlers (m : TaskQueueManager) (task : Task) :
    (execute_task_prelude m task).1.task_handlers = m.task_handlers := by
  unfold execute_task_prelude
  dsimp only
  split
  · exact mip_handlers m task
  · rw [fnh_handlers, mip_handlers]

theorem prelude_max (m : TaskQueueManager) (task : Task) :
    (execute_task_prelude m task).1.max_concurrent_tasks = m.max_concurrent_tasks := by
  unfold execute_task_prelude
  dsimp only
  split
  · exact mip_max m task
  · rw [fnh_max, mip_max]

theorem prelude_lookup_other (m : TaskQueueManager) (task : Task) (id' : String)
    (hne : id' ≠ task.id) :
    get_task (execute_task_prelude m task).1 id' = get_task m id' := by
  unfold execute_task_prelude
  dsimp only
  split
  · exact mip_lookup_other m task id' hne
  · rw [fnh_lookup_other _ task id' hne, mip_lookup_other m task id' hne]

theorem prelude_spec (m : TaskQueueManager) (task : Task) {t0 : Task}
    (hg : get_task m task.id = some t0) :
    ∃ t', get_task (execute_task_prelude m task).1 task.id = some t' ∧
      t'.id = t0.id ∧ t'.dependencies = t0.dependencies ∧
      t'.status = (if has_handler m task.task_type = true then TaskStatus.IN_PROGRESS
        else TaskStatus.FAILED) ∧
      (execute_task_prelude m task).2 = has_handler m task.task_type := by
  obtain ⟨t1, hl1, hst1, hid1, hdep1⟩ := mip_lookup_self m task hg
  have hhc : has_handler (mark_in_progress m task) task.task_type =
      has_handler m task.task_type := has_handler_congr (mip_handlers m task) task.task_type
  unfold execute_task_prelude
  dsimp only
  split
  · rename_i hh
    rw [hhc] at hh
    exact ⟨t1, hl1, hid1, hdep1, by rw [if_pos hh]; exact hst1, by rw [hh]⟩
  · rename_i hh
    rw [hhc] at hh
    obtain ⟨t2, hl2, hst2, hid2, hdep2⟩ := fnh_lookup_self (mark_in_progress m task) task hl1
    refine ⟨t2, hl2, hid2.trans hid1, hdep2.trans hdep1, ?_, ?_⟩
    · rw [if_neg hh]
      exact hst2
    · simp only [Bool.not_eq_true] at hh
      rw [hh]

theorem prelude_running_mem (m : TaskQueueManager) (task : Task) (x : String)
    (hx : x ∈ m.running_tasks) (hne : x ≠ task.id) :
    x ∈ (execute_task_prelude m task).1.running_tasks := by
  unfold execute_task_prelude
  dsimp only
  have hx2 : x ∈ (mark_in_progress m task).running_tasks := by
    rw [mip_running]
    exact mem_insertId_of_mem _ hx
  split
  · exact hx2
  · exact fnh_running_mem _ task x hx2 hne

theorem prelude_running_spawned (m : TaskQueueManager) (task : Task)
    (h : (execute_task_prelude m task).2 = true) :
    task.id ∈ (execute_task_prelude m task).1.running_tasks := by
  unfold execute_task_prelude at h ⊢
  dsimp only at h ⊢
  split
  · rw [mip_running]
    exact mem_insertId_self _ _
  · rename_i hh
    rw [if_neg hh] at h
    exact absurd h (by simp)

theorem prelude_running_len (m : TaskQueueManager) (task : Task) :
    (execute_task_prelude m task).1.running_tasks.length ≤ m.running_tasks.length + 1 := by
  unfold execute_task_prelude
  dsimp only
  have hlen : (mark_in_progress m task).running_tasks.length ≤ m.running_tasks.length + 1 := by
    rw [mip_running]
    exact insertId_length_le _ _
  split
  · exact hlen
  · exact le_trans (fnh_running_len _ task) hlen

theorem mip_lookup_none (m : TaskQueueManager) (task : Task)
    (hg : get_task m task.id = none) :
    get_task (mark_in_progress m task) task.id = none := by
  unfold mark_in_progress
  dsimp only
  rw [get_task_set_running]
  rw [uts_not_found m task.id TaskStatus.IN_PROGRESS none none hg]
  exact hg

theorem prelude_lookup_none (m : TaskQueueManager) (task : Task)
    (hg : get_task m task.id = none) :
    get_task (execute_task_prelude m task).1 task.id = none := by
  have h2 := mip_lookup_none m task hg
  unfold execute_task_prelude
  dsimp only
  split
  · exact h2
  · unfold fail_no_handler
    rw [uts_not_found _ task.id TaskStatus.FAILED none _ h2]
    exact h2

/-- Every IN_PROGRESS task is registered in running_tasks. -/
def ipRun (m : TaskQueueManager) : Prop :=
  ∀ id t, get_task m id = some t → t.status = TaskStatus.IN_PROGRESS →
    id ∈ m.running_tasks

theorem prelude_ipRun (m : TaskQueueManager) (task : Task) (h : ipRun m) :
    ipRun (execute_task_prelude m task).1 := by
  intro id t hgt hst
  by_cases hid : id = task.id
  · subst hid
    cases hg : get_task m task.id with
    | none =>
      rw [prelude_lookup_none m task hg] at hgt
      exact Option.noConfusion hgt
    | some t0 =>
      obtain ⟨t', hl', _, _, hst', hsp⟩ := prelude_spec m task hg
      rw [hl'] at hgt
      have ht : t = t' := (Option.some.injEq .. ▸ hgt).symm
      subst ht
      cases hh : has_handler m task.task_type with
      | false =>
        rw [hh] at hst'
        simp only [Bool.false_eq_true, if_false] at hst'
        rw [hst'] at hst
        exact absurd hst (by intro hc; exact TaskStatus.noConfusion hc)
      | true =>
        refine prelude_running_spawned m task ?_
        rw [hsp, hh]
  · have hgm : get_task m id = some t := by
      rw [← prelude_lookup_other m task id hid]
      exact hgt
    exact prelude_running_mem m task id (h id t hgm hst) hid

theorem da_queue (m : TaskQueueManager) (l : List Task) :
    (dispatch_all m l).1.task_queue = m.task_queue := by
  induction l generalizing m with
  | nil => rfl
  | cons task rest ih =>
    simp only [dispatch_all]
    rw [ih, prelude_queue]

theorem da_handlers (m : TaskQueueManager) (l : List Task) :
    (dispatch_all m l).1.task_handlers = m.task_handlers := by
  induction l generalizing m with
  | nil => rfl
  | cons task rest ih =>
    simp only [dispatch_all]
    rw [ih, prelude_handlers]

theorem da_max (m : TaskQueueManager) (l : List Task) :
    (dispatch_all m l).1.max_concurrent_tasks = m.max_concurrent_tasks := by
  induction l generalizing m with
  | nil => rfl
  | cons task rest ih =>
    simp only [dispatch_all]
    rw [ih, prelude_max]

theorem da_lookup_other (m : TaskQueueManager) (l : List Task) (id : String)
    (hid : id ∉ l.map Task.id) :
    get_task (dispatch_all m l).1 id = get_task m id := by
  induction l generalizing m with
  | nil => rfl
  | cons task rest ih =>
    simp only [List.map_cons, List.mem_cons, not_or] at hid
    simp only [dispatch_all]
    rw [ih _ hid.2, prelude_lookup_other m task id hid.1]

theorem da_running_len (m : TaskQueueManager) (l : List Task) :
    (dispatch_all m l).1.running_tasks.length ≤ m.running_tasks.length + l.length := by
  induction l generalizing m with
  | nil => simp [dispatch_all]
  | cons task rest ih =>
    simp only [dispatch_all, List.length_cons]
    have h1 := ih (execute_task_prelude m task).1
    have h2 := prelude_running_len m task
    omega

theorem da_ipRun (m : TaskQueueManager) (l : List Task) (h : ipRun m) :
    ipRun (dispatch_all m l).1 := by
  induction l generalizing m with
  | nil => exact h
  | cons task rest ih =>
    simp only [dispatch_all]
    exact ih _ (prelude_ipRun m task h)

theorem da_spawned_sub (m : TaskQueueManager) (l : List Task) :
    List.Sublist (dispatch_all m l).2 (l.map Task.id) := by
  induction l generalizing m with
  | nil => simp [dispatch_all]
  | cons task rest ih =>
    simp only [dispatch_all, List.map_cons]
    split
    · simp only [List.singleton_append]
      exact List.Sublist.cons₂ _ (ih _)
    · simp only [List.nil_append]
      exact List.Sublist.cons _ (ih _)

theorem da_dispatch_spec (m : TaskQueueManager) (l : List Task)
    (hfound : ∀ t ∈ l, get_task m t.id = some t)
    (hnd : (l.map Task.id).Nodup) :
    (∀ t0 ∈ l, ∃ t', get_task (dispatch_all m l).1 t0.id = some t' ∧ t'.id = t0.id ∧
      t'.dependencies = t0.dependencies ∧
      t'.status = (if has_handler m t0.task_type = true then TaskStatus.IN_PROGRESS
        else TaskStatus.FAILED)) ∧
    ∀ id ∈ (dispatch_all m l).2, ∃ t0, t0 ∈ l ∧ t0.id = id ∧
      has_handler m t0.task_type = true := by
  induction l generalizing m with
  | nil =>
    constructor
    · intro t0 ht0
      simp at ht0
    · intro id hid
      simp [dispatch_all] at hid
  | cons task rest ih =>
    simp only [List.map_cons, List.nodup_cons] at hnd
    have hgt : get_task m task.id = some task := hfound task (List.mem_cons_self _ _)
    obtain ⟨t', hl', hid', hdep', hst', hsp'⟩ := prelude_spec m task hgt
    have hfound2 : ∀ t ∈ rest, get_task (execute_task_prelude m task).1 t.id = some t := by
      intro t ht
      have hne : t.id ≠ task.id := by
        intro hc
        exact hnd.1 (hc ▸ List.mem_map.mpr ⟨t, ht, rfl⟩)
      rw [prelude_lookup_other m task t.id hne]
      exact hfound t (List.mem_cons_of_mem _ ht)
    obtain ⟨ihd, ihs⟩ := ih (execute_task_prelude m task).1 hfound2 hnd.2
    have hhc : ∀ ty, has_handler (execute_task_prelude m task).1 ty = has_handler m ty :=
      fun ty => has_handler_congr (prelude_handlers m task) ty
    constructor
    · intro t0 ht0
      rcases List.mem_cons.mp ht0 with h1 | h1
      · subst h1
        refine ⟨t', ?_, hid', hdep', hst'⟩
        simp only [dispatch_all]
        rw [da_lookup_other _ rest t0.id ?_]
        · exact hl'
        · intro hc
          exact hnd.1 hc
      · obtain ⟨t2, hl2, hid2, hdep2, hst2⟩ := ihd t0 h1
        refine ⟨t2, ?_, hid2, hdep2, ?_⟩
        · simp only [dispatch_all]
          exact hl2
        · rw [hst2, hhc]
    · intro id hid
      simp only [dispatch_all, List.mem_append] at hid
      rcases hid with h1 | h1
      · have hsp : (execute_task_prelude m task).2 = true := by
          by_contra hc
          simp only [Bool.not_eq_true] at hc
          rw [hc] at h1
          simp at h1
        rw [hsp] at h1
        simp only [if_true, List.mem_singleton] at h1
        subst h1
        refine ⟨task, List.mem_cons_self _ _, rfl, ?_⟩
        rw [← hsp', hsp]
      · obtain ⟨t0, ht0, hid0, hh0⟩ := ihs id h1
        refine ⟨t0, List.mem_cons_of_mem _ ht0, hid0, ?_⟩
        rw [← hhc]
        exact hh0

/-! ### The C1 invariant: bounded concurrency -/

theorem isTerminal_ne_ip {st : TaskStatus} (h : isTerminal st = true) :
    ¬ st = TaskStatus.IN_PROGRESS := by
  cases st <;> simp_all [isTerminal]

/-- Inductive invariant for the concurrency bound: well-keyed store, every
IN_PROGRESS task registered in running_tasks, and running_tasks within the
budget. -/
structure C1Inv (m : TaskQueueManager) : Prop where
  knd : keysND m
  kid : keyIdP m
  ipr : ipRun m
  rbd : m.running_tasks.length ≤ m.max_concurrent_tasks

theorem C1Inv_enqueue (m : TaskQueueManager) (task : Task)
    (hq : task.status = TaskStatus.QUEUED) (h : C1Inv m) : C1Inv (enqueue m task).1 := by
  refine ⟨enqueue_keysND m task h.knd, enqueue_keyIdP m task h.knd h.kid, ?_, ?_⟩
  · intro id t hgt hst
    rw [enqueue_running]
    by_cases hid : id = task.id
    · subst hid
      rw [enqueue_lookup_self] at hgt
      have ht : t = task := (Option.some.injEq .. ▸ hgt).symm
      subst ht
      rw [hq] at hst
      exact TaskStatus.noConfusion hst
    · rw [enqueue_lookup_other m task id hid] at hgt
      exact h.ipr id t hgt hst
  · rw [enqueue_running, enqueue_max]
    exact h.rbd

theorem C1Inv_uts (m : TaskQueueManager) (id : String) (st : TaskStatus)
    (res : Option AnyMap) (err : Option String) (hterm : isTerminal st = true)
    (h : C1Inv m) : C1Inv (update_task_status m id st res err).1 := by
  cases hg : get_task m id with
  | none =>
    rw [uts_not_found m id st res err hg]
    exact h
  | some t =>
    refine ⟨uts_keysND m id st res err h.knd, uts_keyIdP m id st res err h.knd h.kid,
      ?_, ?_⟩
    · intro id' t' hgt hst
      rw [uts_running_terminal m id st res err hterm hg]
      by_cases hid : id' = id
      · subst hid
        obtain ⟨t2, hl2, hst2, _, _⟩ := uts_lookup_self m id' st res err hg
        rw [hl2] at hgt
        have ht : t' = t2 := (Option.some.injEq .. ▸ hgt).symm
        subst ht
        rw [hst2] at hst
        exact absurd hst (isTerminal_ne_ip hterm)
      · rw [uts_lookup_other m id id' st res err hid] at hgt
        simp only [List.mem_filter, decide_eq_true_eq]
        exact ⟨h.ipr id' t' hgt hst, hid⟩
    · rw [uts_running_terminal m id st res err hterm hg, uts_max]
      exact le_trans (List.length_filter_le _ _) h.rbd

theorem C1Inv_rebuild (m : TaskQueueManager) (h : C1Inv m) :
    C1Inv (rebuild_priority_queue m) := by
  refine ⟨h.knd, h.kid, ?_, h.rbd⟩
  intro id t hgt hst
  exact h.ipr id t hgt hst

theorem C1Inv_cancel (m : TaskQueueManager) (id : String) (h : C1Inv m) :
    C1Inv (cancel_task m id).1 := by
  cases hg : get_task m id with
  | none =>
    rw [cancel_not_found m id hg]
    exact h
  | some t =>
    by_cases hst : t.status = TaskStatus.QUEUED
    · rw [cancel_queued m id hg hst]
      exact C1Inv_rebuild _ (C1Inv_uts m id TaskStatus.CANCELLED none none
        isTerminal_CANCELLED h)
    · rw [cancel_not_queued m id hg hst]
      exact h

theorem prelude_keysND (m : TaskQueueManager) (task : Task) (h : keysND m) :
    keysND (execute_task_prelude m task).1 := by
  unfold execute_task_prelude
  dsimp only
  have h2 : keysND (mark_in_progress m task) :=
    uts_keysND m task.id TaskStatus.IN_PROGRESS none none h
  split
  · exact h2
  · exact uts_keysND _ task.id TaskStatus.FAILED none _ h2

theorem prelude_keyIdP (m : TaskQueueManager) (task : Task) (hnd : keysND m)
    (h : keyIdP m) : keyIdP (execute_task_prelude m task).1 := by
  unfold execute_task_prelude
  dsimp only
  have hnd2 : keysND (mark_in_progress m task) :=
    uts_keysND m task.id TaskStatus.IN_PROGRESS none none hnd
  have h2 : keyIdP (mark_in_progress m task) :=
    uts_keyIdP m task.id TaskStatus.IN_PROGRESS none none hnd h
  split
  · exact h2
  · exact uts_keyIdP _ task.id TaskStatus.FAILED none _ hnd2 h2

theorem da_keysND (m : TaskQueueManager) (l : List Task) (h : keysND m) :
    keysND (dispatch_all m l).1 := by
  induction l generalizing m with
  | nil => exact h
  | cons task rest ih =>
    simp only [dispatch_all]
    exact ih _ (prelude_keysND m task h)

theorem da_keyIdP (m : TaskQueueManager) (l : List Task) (hnd : keysND m)
    (h : keyIdP m) : keyIdP (dispatch_all m l).1 := by
  induction l generalizing m with
  | nil => exact h
  | cons task rest ih =>
    simp only [dispatch_all]
    exact ih _ (prelude_keysND m task hnd) (prelude_keyIdP m task hnd h)

/-- The manager part of a dispatcher tick. -/
def tickM (m : TaskQueueManager) : TaskQueueManager :=
  (dispatch_all (process_next_tasks m).1 (process_next_tasks m).2).1

theorem tickS_mgr (s : SchedState) : (tickS s).mgr = tickM s.mgr := rfl

theorem C1Inv_tick (m : TaskQueueManager) (h : C1Inv m) : C1Inv (tickM m) := by
  obtain ⟨q', hfst, hsub⟩ := pnt_fst m
  have h1 : C1Inv (process_next_tasks m).1 := by
    rw [hfst]
    refine ⟨h.knd, h.kid, ?_, h.rbd⟩
    intro id t hgt hst
    exact h.ipr id t hgt hst
  refine ⟨da_keysND _ _ h1.knd, da_keyIdP _ _ h1.knd h1.kid, da_ipRun _ _ h1.ipr, ?_⟩
  unfold tickM
  rw [da_max]
  rcases pnt_len m with hlen | hlen
  · rw [hlen]
    simp only [dispatch_all]
    rw [hfst]
    exact h.rbd
  · have h2 := da_running_len (process_next_tasks m).1 (process_next_tasks m).2
    rw [hfst] at h2 ⊢
    simp only at h2 ⊢
    omega

theorem C1Inv_step {s s' : SchedState} (hstep : Step s s') (h : C1Inv s.mgr) :
    C1Inv s'.mgr := by
  cases hstep with
  | submit task hq => exact C1Inv_enqueue s.mgr task hq h
  | tick =>
    rw [tickS_mgr]
    exact C1Inv_tick s.mgr h
  | finish id outcome hu =>
    cases outcome with
    | ok r =>
      exact C1Inv_uts s.mgr id TaskStatus.COMPLETED (some r) none isTerminal_COMPLETED h
    | error e =>
      exact C1Inv_uts s.mgr id TaskStatus.FAILED none _ isTerminal_FAILED h
  | cancel id => exact C1Inv_cancel s.mgr id h

theorem C1Inv_init (n : Nat) (hs : List String) : C1Inv (initState n hs).mgr := by
  refine ⟨?_, ?_, ?_, ?_⟩
  · simp [keysND, initState, initMgr]
  · intro p hp
    simp [initState, initMgr] at hp
  · intro id t hgt hst
    simp [get_task, initState, initMgr, lookupTask] at hgt
  · simp [initState, initMgr]

theorem C1Inv_reachable {n : Nat} {hs : List String} {s : SchedState}
    (h : Reachable n hs s) : C1Inv s.mgr := by
  induction h with
  | refl => exact C1Inv_init n hs
  | tail hr hstep ih => exact C1Inv_step hstep ih

theorem countInProgress_le (m : TaskQueueManager) (h : C1Inv m) :
    countInProgress m ≤ m.running_tasks.length := by
  unfold countInProgress
  have hmap : (m.tasks.filter fun p =>
      decide (p.2.status = TaskStatus.IN_PROGRESS)).length =
      ((m.tasks.filter fun p =>
        decide (p.2.status = TaskStatus.IN_PROGRESS)).map Prod.fst).length := by
    rw [List.length_map]
  rw [hmap]
  have hnd : ((m.tasks.filter fun p =>
      decide (p.2.status = TaskStatus.IN_PROGRESS)).map Prod.fst).Nodup :=
    h.knd.sublist (List.Sublist.map _ (List.filter_sublist _))
  have hsubset : ∀ k ∈ (m.tasks.filter fun p =>
      decide (p.2.status = TaskStatus.IN_PROGRESS)).map Prod.fst,
      k ∈ m.running_tasks := by
    intro k hk
    obtain ⟨⟨k', t⟩, hmem, hfst⟩ := List.mem_map.mp hk
    obtain ⟨hmem2, hst⟩ := List.mem_filter.mp hmem
    simp only [decide_eq_true_eq] at hst
    simp only at hfst
    subst hfst
    exact h.ipr k' t (lookupTask_eq_some_of_mem h.knd hmem2) hst
  exact (hnd.subperm hsubset).length_le

/-! ### Helper lemmas for the dependency invariant -/

theorem depsCompleted_mono {m m' : TaskQueueManager} {t : Task}
    (h : depsCompleted m t)
    (hpres : ∀ dep d, get_task m dep = some d → d.status = TaskStatus.COMPLETED →
      get_task m' dep = some d) : depsCompleted m' t := by
  intro dep hdep
  obtain ⟨d, hd, hc⟩ := h dep hdep
  exact ⟨d, hpres dep d hd hc, hc⟩

theorem uts_preserves_completed (m : TaskQueueManager) (id : String) (st : TaskStatus)
    (res : Option AnyMap) (err : Option String)
    (hnc : ∀ t, get_task m id = some t → ¬ t.status = TaskStatus.COMPLETED) :
    ∀ dep d, get_task m dep = some d → d.status = TaskStatus.COMPLETED →
      get_task (update_task_status m id st res err).1 dep = some d := by
  intro dep d hd hc
  by_cases h : dep = id
  · subst h
    exact absurd hc (hnc d hd)
  · rw [uts_lookup_other m id dep st res err h]
    exact hd

theorem uts_queue_push (m : TaskQueueManager) (id : String) (st : TaskStatus)
    (res : Option AnyMap) (err : Option String) {t : Task}
    (hg : get_task m id = some t) (hterm : isTerminal st = true)
    (hknd : keysND m) (hkid : keyIdP m) :
    ∃ pushed : List QueueEntry,
      (update_task_status m id st res err).1.task_queue = pushed ++ m.task_queue ∧
      (pushed.map QueueEntry.taskId).Nodup ∧
      ∀ e ∈ pushed, ∃ t'', get_task (update_task_status m id st res err).1 e.taskId =
          some t'' ∧ t''.status = TaskStatus.QUEUED ∧ id ∈ t''.dependencies ∧
        depsCompleted (update_task_status m id st res err).1 t'' := by
  rw [uts_term_eq m id st res err hg hterm]
  have htid : t.id = id := hkid (id, t) (mem_of_lookupTask_eq_some hg)
  have hwid : (uts_write m id t st res err).2.id = id := by
    rw [(uts_write_status m id t st res err).2.1, htid]
  have hknd2 : keysND { m with
      tasks := setTask m.tasks id (uts_write m id t st res err).2,
      clock := (uts_write m id t st res err).1.clock,
      running_tasks := m.running_tasks.filter fun x => decide (x ≠ id),
      completed_tasks := (id :: m.completed_tasks).take 100 } := by
    unfold keysND
    exact setTask_keys_nodup _ _ _ hknd
  have hkid2 : keyIdP { m with
      tasks := setTask m.tasks id (uts_write m id t st res err).2,
      clock := (uts_write m id t st res err).1.clock,
      running_tasks := m.running_tasks.filter fun x => decide (x ≠ id),
      completed_tasks := (id :: m.completed_tasks).take 100 } := by
    unfold keyIdP
    intro p hp
    rcases mem_setTask hknd hp with h1 | h1
    · rw [h1]
      exact hwid
    · exact hkid p h1.1
  obtain ⟨pushed, hq, hnd, hmem⟩ := check_dependent_tasks_spec { m with
      tasks := setTask m.tasks id (uts_write m id t st res err).2,
      clock := (uts_write m id t st res err).1.clock,
      running_tasks := m.running_tasks.filter fun x => decide (x ≠ id),
      completed_tasks := (id :: m.completed_tasks).take 100 } id
  refine ⟨pushed, hq, hnd hknd2 hkid2, ?_⟩
  intro e he
  obtain ⟨k, t'', hkm, hid'', hst'', hdep'', hmet''⟩ := hmem e he
  have hk : t''.id = k := hkid2 (k, t'') hkm
  have hlook : get_task (check_dependent_tasks { m with
      tasks := setTask m.tasks id (uts_write m id t st res err).2,
      clock := (uts_write m id t st res err).1.clock,
      running_tasks := m.running_tasks.filter fun x => decide (x ≠ id),
      completed_tasks := (id :: m.completed_tasks).take 100 } id) e.taskId = some t'' := by
    rw [get_task, cdt_tasks, hid'', hk]
    exact lookupTask_eq_some_of_mem hknd2 hkm
  refine ⟨t'', hlook, hst'', hdep'', ?_⟩
  have hcongr : all_dependencies_met (check_dependent_tasks { m with
      tasks := setTask m.tasks id (uts_write m id t st res err).2,
      clock := (uts_write m id t st res err).1.clock,
      running_tasks := m.running_tasks.filter fun x => decide (x ≠ id),
      completed_tasks := (id :: m.completed_tasks).take 100 } id) t'' = true := by
    rw [all_dependencies_met_congr (cdt_tasks _ _)]
    exact hmet''
  exact (all_dependencies_met_iff _ t'').mp hcongr

/-! ### The dependency-ordering invariant under duplicate-free submissions -/

/-- Inductive invariant for dependency ordering: well-keyed store; every
in-flight execution unit is an IN_PROGRESS task and units are distinct; every
ready-queue entry refers to a stored task whose dependencies are all
COMPLETED while it is still QUEUED; entry ids are distinct; and every
IN_PROGRESS task has all dependencies COMPLETED. -/
structure DFInv (s : SchedState) : Prop where
  knd : keysND s.mgr
  kid : keyIdP s.mgr
  uip : ∀ id ∈ s.units, ∃ t, get_task s.mgr id = some t ∧
    t.status = TaskStatus.IN_PROGRESS
  und : s.units.Nodup
  qwf : ∀ e ∈ s.mgr.task_queue, ∃ t, get_task s.mgr e.taskId = some t ∧
    (t.status = TaskStatus.QUEUED → depsCompleted s.mgr t)
  qnd : (s.mgr.task_queue.map QueueEntry.taskId).Nodup
  ipd : ∀ id t, get_task s.mgr id = some t → t.status = TaskStatus.IN_PROGRESS →
    depsCompleted s.mgr t

theorem DFInv_submit {s : SchedState} (task : Task)
    (hq : task.status = TaskStatus.QUEUED) (hfresh : get_task s.mgr task.id = none)
    (h : DFInv s) : DFInv { mgr := (enqueue s.mgr task).1, units := s.units } := by
  have hpres : ∀ dep d, get_task s.mgr dep = some d →
      d.status = TaskStatus.COMPLETED → get_task (enqueue s.mgr task).1 dep = some d := by
    intro dep d hd hc
    by_cases hdep : dep = task.id
    · subst hdep
      rw [hd] at hfresh
      exact Option.noConfusion hfresh
    · rw [enqueue_lookup_other s.mgr task dep hdep]
      exact hd
  refine ⟨enqueue_keysND s.mgr task h.knd, enqueue_keyIdP s.mgr task h.knd h.kid,
    ?_, h.und, ?_, ?_, ?_⟩
  · intro id hid
    obtain ⟨t, hgt, hip⟩ := h.uip id hid
    have hne : id ≠ task.id := by
      intro hc
      rw [hc, hfresh] at hgt
      exact Option.noConfusion hgt
    exact ⟨t, by rw [enqueue_lookup_other s.mgr task id hne]; exact hgt, hip⟩
  · intro e he
    rcases enqueue_queue s.mgr task with hcase | ⟨hcase, hcond⟩
    · rw [hcase] at he
      obtain ⟨t, hgt, himp⟩ := h.qwf e he
      have hne : e.taskId ≠ task.id := by
        intro hc
        rw [hc, hfresh] at hgt
        exact Option.noConfusion hgt
      refine ⟨t, by rw [enqueue_lookup_other s.mgr task _ hne]; exact hgt, ?_⟩
      intro hst
      exact depsCompleted_mono (himp hst) hpres
    · rw [hcase] at he
      rcases List.mem_cons.mp he with h1 | h1
      · subst h1
        refine ⟨task, enqueue_lookup_self s.mgr task, ?_⟩
        intro _
        rcases hcond with hdeps | hmet
        · intro dep hdep
          rw [hdeps] at hdep
          exact absurd hdep (List.not_mem_nil dep)
        · have hmet2 : all_dependencies_met (enqueue s.mgr task).1 task = true := by
            rw [@all_dependencies_met_congr (enqueue s.mgr task).1
              { s.mgr with tasks := setTask s.mgr.tasks task.id task }
              (enqueue_tasks s.mgr task) task]
            exact hmet
          exact (all_dependencies_met_iff _ task).mp hmet2
      · obtain ⟨t, hgt, himp⟩ := h.qwf e h1
        have hne : e.taskId ≠ task.id := by
          intro hc
          rw [hc, hfresh] at hgt
          exact Option.noConfusion hgt
        refine ⟨t, by rw [enqueue_lookup_other s.mgr task _ hne]; exact hgt, ?_⟩
        intro hst
        exact depsCompleted_mono (himp hst) hpres
  · rcases enqueue_queue s.mgr task with hcase | ⟨hcase, _⟩
    · rw [hcase]
      exact h.qnd
    · rw [hcase]
      simp only [List.map_cons, List.nodup_cons]
      refine ⟨?_, h.qnd⟩
      intro hmem
      obtain ⟨e0, he0, hid0⟩ := List.mem_map.mp hmem
      obtain ⟨t, hgt, _⟩ := h.qwf e0 he0
      rw [hid0, hfresh] at hgt
      exact Option.noConfusion hgt
  · intro id t hgt hip
    by_cases hne : id = task.id
    · subst hne
      rw [enqueue_lookup_self s.mgr task] at hgt
      have ht : t = task := (Option.some.injEq .. ▸ hgt).symm
      subst ht
      rw [hq] at hip
      exact TaskStatus.noConfusion hip
    · rw [enqueue_lookup_other s.mgr task id hne] at hgt
      exact depsCompleted_mono (h.ipd id t hgt hip) hpres

theorem DFInv_uts_terminal {s : SchedState} (id : String) (st : TaskStatus)
    (res : Option AnyMap) (err : Option String) (units' : List String)
    (hterm : isTerminal st = true) (hstq : ¬ st = TaskStatus.QUEUED)
    (hstip : ¬ st = TaskStatus.IN_PROGRESS) {t0 : Task}
    (hgt0 : get_task s.mgr id = some t0) (hnc0 : ¬ t0.status = TaskStatus.COMPLETED)
    (h : DFInv s) (hsub : ∀ x ∈ units', x ∈ s.units) (hund : units'.Nodup)
    (hne : id ∉ units') :
    DFInv { mgr := (update_task_status s.mgr id st res err).1, units := units' } := by
  have hnc : ∀ t, get_task s.mgr id = some t → ¬ t.status = TaskStatus.COMPLETED := by
    intro t ht
    rw [ht] at hgt0
    have heq : t = t0 := (Option.some.injEq .. ▸ hgt0)
    rw [heq]
    exact hnc0
  have hpres := uts_preserves_completed s.mgr id st res err hnc
  have hqueue : ∃ pushed : List QueueEntry,
      (update_task_status s.mgr id st res err).1.task_queue =
        pushed ++ s.mgr.task_queue ∧
      (pushed.map QueueEntry.taskId).Nodup ∧
      ∀ e ∈ pushed, ∃ t'', get_task (update_task_status s.mgr id st res err).1 e.taskId =
          some t'' ∧ t''.status = TaskStatus.QUEUED ∧ id ∈ t''.dependencies ∧
        depsCompleted (update_task_status s.mgr id st res err).1 t'' := by
    by_cases hC : st = TaskStatus.COMPLETED
    · subst hC
      exact uts_queue_push s.mgr id TaskStatus.COMPLETED res err hgt0 hterm h.knd h.kid
    · refine ⟨[], ?_, List.nodup_nil, ?_⟩
      · rw [uts_queue_terminal_no_push s.mgr id st res err hC]
        rfl
      · intro e he
        exact absurd he (List.not_mem_nil e)
  obtain ⟨pushed, hq, hpnd, hpmem⟩ := hqueue
  obtain ⟨tS, hlS, hstS, _, _⟩ := uts_lookup_self s.mgr id st res err hgt0
  refine ⟨uts_keysND s.mgr id st res err h.knd,
    uts_keyIdP s.mgr id st res err h.knd h.kid, ?_, hund, ?_, ?_, ?_⟩
  · intro id' hid'
    obtain ⟨t, hgt, hip⟩ := h.uip id' (hsub id' hid')
    have hne' : id' ≠ id := by
      intro hc
      rw [hc] at hid'
      exact hne hid'
    exact ⟨t, by rw [uts_lookup_other s.mgr id id' st res err hne']; exact hgt, hip⟩
  · intro e he
    rw [hq] at he
    rcases List.mem_append.mp he with h1 | h1
    · obtain ⟨t'', hl'', hst'', _, hdc''⟩ := hpmem e h1
      exact ⟨t'', hl'', fun _ => hdc''⟩
    · obtain ⟨t, hgt, himp⟩ := h.qwf e h1
      by_cases hid : e.taskId = id
      · rw [hid]
        refine ⟨tS, hlS, ?_⟩
        intro hstq'
        rw [hstS] at hstq'
        exact absurd hstq' hstq
      · refine ⟨t, by rw [uts_lookup_other s.mgr id _ st res err hid]; exact hgt, ?_⟩
        intro hst
        exact depsCompleted_mono (himp hst) hpres
  · rw [hq]
    simp only [List.map_append]
    rw [List.nodup_append]
    refine ⟨hpnd, h.qnd, ?_⟩
    intro x hx1 hx2
    obtain ⟨e, he, hex⟩ := List.mem_map.mp hx1
    obtain ⟨e0, he0, he0x⟩ := List.mem_map.mp hx2
    obtain ⟨t'', hl'', hst'', hdep'', _⟩ := hpmem e he
    have hxid : x ≠ id := by
      intro hc
      rw [hex, hc] at hl''
      rw [hl''] at hlS
      have ht2 : t'' = tS := Option.some.injEq .. ▸ hlS
      rw [ht2, hstS] at hst''
      exact hstq hst''
    have hlm : get_task s.mgr x = some t'' := by
      rw [← uts_lookup_other s.mgr id x st res err hxid, ← hex]
      exact hl''
    obtain ⟨t1, hgt1, himp1⟩ := h.qwf e0 he0
    rw [he0x] at hgt1
    rw [hlm] at hgt1
    have ht1 : t1 = t'' := (Option.some.injEq .. ▸ hgt1).symm
    obtain ⟨d, hd, hdc⟩ := himp1 (by rw [ht1]; exact hst'') id (by rw [ht1]; exact hdep'')
    rw [hgt0] at hd
    have hd0 : d = t0 := (Option.some.injEq .. ▸ hd).symm
    rw [hd0] at hdc
    exact hnc0 hdc
  · intro id' t' hgt' hip'
    by_cases hid : id' = id
    · subst hid
      rw [hlS] at hgt'
      have ht' : t' = tS := (Option.some.injEq .. ▸ hgt').symm
      rw [ht', hstS] at hip'
      exact absurd hip' hstip
    · rw [uts_lookup_other s.mgr id id' st res err hid] at hgt'
      exact depsCompleted_mono (h.ipd id' t' hgt' hip') hpres

theorem DFInv_finish {s : SchedState} (id : String) (outcome : Except String AnyMap)
    (hu : id ∈ s.units) (h : DFInv s) :
    DFInv { mgr := execute_task_finish s.mgr id outcome,
            units := s.units.erase id } := by
  obtain ⟨t0, hgt0, hip0⟩ := h.uip id hu
  have hnc0 : ¬ t0.status = TaskStatus.COMPLETED := by
    rw [hip0]
    intro hc
    exact TaskStatus.noConfusion hc
  have hsub : ∀ x ∈ s.units.erase id, x ∈ s.units := fun x hx =>
    List.mem_of_mem_erase hx
  have hund : (s.units.erase id).Nodup := h.und.erase id
  have hne : id ∉ s.units.erase id := by
    intro hc
    exact absurd ((h.und.mem_erase_iff).mp hc).1 (by simp)
  cases outcome with
  | ok r =>
    exact DFInv_uts_terminal id TaskStatus.COMPLETED (some r) none (s.units.erase id)
      isTerminal_COMPLETED (by intro hc; exact TaskStatus.noConfusion hc)
      (by intro hc; exact TaskStatus.noConfusion hc) hgt0 hnc0 h hsub hund hne
  | error e =>
    exact DFInv_uts_terminal id TaskStatus.FAILED none _ (s.units.erase id)
      isTerminal_FAILED (by intro hc; exact TaskStatus.noConfusion hc)
      (by intro hc; exact TaskStatus.noConfusion hc) hgt0 hnc0 h hsub hund hne

theorem DFInv_rebuild {s : SchedState} (h : DFInv s) :
    DFInv { mgr := rebuild_priority_queue s.mgr, units := s.units } := by
  refine ⟨h.knd, h.kid, h.uip, h.und, ?_, ?_, h.ipd⟩
  · intro e he
    exact h.qwf e ((rebuild_queue_sublist s.mgr).mem he)
  · exact h.qnd.sublist (List.Sublist.map _ (rebuild_queue_sublist s.mgr))

theorem DFInv_cancel {s : SchedState} (id : String) (h : DFInv s) :
    DFInv { mgr := (cancel_task s.mgr id).1, units := s.units } := by
  cases hg : get_task s.mgr id with
  | none =>
    rw [cancel_not_found s.mgr id hg]
    exact ⟨h.knd, h.kid, h.uip, h.und, h.qwf, h.qnd, h.ipd⟩
  | some t =>
    by_cases hst : t.status = TaskStatus.QUEUED
    · rw [cancel_queued s.mgr id hg hst]
      have hnc0 : ¬ t.status = TaskStatus.COMPLETED := by
        rw [hst]
        intro hc
        exact TaskStatus.noConfusion hc
      have hne : id ∉ s.units := by
        intro hc
        obtain ⟨t', hgt', hip'⟩ := h.uip id hc
        rw [hg] at hgt'
        have : t = t' := Option.some.injEq .. ▸ hgt'
        rw [← this, hst] at hip'
        exact TaskStatus.noConfusion hip'
      have h2 := DFInv_uts_terminal id TaskStatus.CANCELLED none none s.units
        isTerminal_CANCELLED (by intro hc; exact TaskStatus.noConfusion hc)
        (by intro hc; exact TaskStatus.noConfusion hc) hg hnc0 h
        (fun x hx => hx) h.und hne
      exact DFInv_rebuild h2
    · rw [cancel_not_queued s.mgr id hg hst]
      exact ⟨h.knd, h.kid, h.uip, h.und, h.qwf, h.qnd, h.ipd⟩

theorem tickS_units (s : SchedState) :
    (tickS s).units =
      s.units ++ (dispatch_all (process_next_tasks s.mgr).1 (process_next_tasks s.mgr).2).2 :=
  rfl

theorem DFInv_tick {s : SchedState} (h : DFInv s) : DFInv (tickS s) := by
  obtain ⟨q', hfst, hsub⟩ := pnt_fst s.mgr
  have hg1 : ∀ x, get_task (process_next_tasks s.mgr).1 x = get_task s.mgr x := by
    rw [hfst]
    intro x
    rfl
  have hknd1 : keysND (process_next_tasks s.mgr).1 := by
    rw [hfst]
    exact h.knd
  have hkid1 : keyIdP (process_next_tasks s.mgr).1 := by
    rw [hfst]
    exact h.kid
  have hmemL := pnt_mem s.mgr h.kid
  have hndL := pnt_nodup s.mgr h.qnd h.kid
  have hfound1 : ∀ t ∈ (process_next_tasks s.mgr).2,
      get_task (process_next_tasks s.mgr).1 t.id = some t := by
    intro t ht
    rw [hg1]
    exact (hmemL t ht).1
  obtain ⟨hdisp, hspawn⟩ := da_dispatch_spec (process_next_tasks s.mgr).1
    (process_next_tasks s.mgr).2 hfound1 hndL
  have hQ : ∀ x ∈ (process_next_tasks s.mgr).2.map Task.id, ∀ d,
      get_task s.mgr x = some d → d.status = TaskStatus.QUEUED := by
    intro x hx d hd
    obtain ⟨t0, ht0, ht0x⟩ := List.mem_map.mp hx
    obtain ⟨hg0, hst0, _⟩ := hmemL t0 ht0
    rw [ht0x] at hg0
    rw [hd] at hg0
    have : d = t0 := Option.some.injEq .. ▸ hg0
    rw [this]
    exact hst0
  have hother : ∀ x, x ∉ (process_next_tasks s.mgr).2.map Task.id →
      get_task (tickS s).mgr x = get_task s.mgr x := by
    intro x hx
    rw [tickS_mgr, tickM, da_lookup_other _ _ x hx, hg1]
  have hC : ∀ dep d, get_task s.mgr dep = some d →
      d.status = TaskStatus.COMPLETED → get_task (tickS s).mgr dep = some d := by
    intro dep d hd hc
    have hdep : dep ∉ (process_next_tasks s.mgr).2.map Task.id := by
      intro hmem
      have := hQ dep hmem d hd
      rw [hc] at this
      exact TaskStatus.noConfusion this
    rw [hother dep hdep]
    exact hd
  have hlookL : ∀ t0 ∈ (process_next_tasks s.mgr).2,
      ∃ t', get_task (tickS s).mgr t0.id = some t' ∧ t'.id = t0.id ∧
        t'.dependencies = t0.dependencies ∧
        t'.status = (if has_handler (process_next_tasks s.mgr).1 t0.task_type = true
          then TaskStatus.IN_PROGRESS else TaskStatus.FAILED) := by
    intro t0 ht0
    obtain ⟨t', hl', hid', hdep', hst'⟩ := hdisp t0 ht0
    exact ⟨t', hl', hid', hdep', hst'⟩
  refine ⟨?_, ?_, ?_, ?_, ?_, ?_, ?_⟩
  · rw [tickS_mgr, tickM]
    exact da_keysND _ _ hknd1
  · rw [tickS_mgr, tickM]
    exact da_keyIdP _ _ hknd1 hkid1
  · intro id hid
    rw [tickS_units] at hid
    rcases List.mem_append.mp hid with h1 | h1
    · obtain ⟨t, hgt, hip⟩ := h.uip id h1
      have hnid : id ∉ (process_next_tasks s.mgr).2.map Task.id := by
        intro hmem
        have := hQ id hmem t hgt
        rw [hip] at this
        exact TaskStatus.noConfusion this
      exact ⟨t, by rw [hother id hnid]; exact hgt, hip⟩
    · obtain ⟨t0, ht0L, ht0id, hh⟩ := hspawn id h1
      obtain ⟨t', hl', _, _, hst'⟩ := hlookL t0 ht0L
      refine ⟨t', by rw [← ht0id]; exact hl', ?_⟩
      rw [hst', if_pos hh]
  · rw [tickS_units]
    rw [List.nodup_append]
    refine ⟨h.und, ?_, ?_⟩
    · exact hndL.sublist (da_spawned_sub _ _)
    · intro x hx1 hx2
      obtain ⟨t, hgt, hip⟩ := h.uip x hx1
      have hmem : x ∈ (process_next_tasks s.mgr).2.map Task.id :=
        (da_spawned_sub _ _).mem hx2
      have := hQ x hmem t hgt
      rw [hip] at this
      exact TaskStatus.noConfusion this
  · intro e he
    have hqpost : (tickS s).mgr.task_queue = q' := by
      rw [tickS_mgr, tickM, da_queue, hfst]
    rw [hqpost] at he
    have heq : e ∈ s.mgr.task_queue := hsub.mem he
    obtain ⟨t, hgt, himp⟩ := h.qwf e heq
    by_cases hmem : e.taskId ∈ (process_next_tasks s.mgr).2.map Task.id
    · obtain ⟨t0, ht0L, ht0id⟩ := List.mem_map.mp hmem
      obtain ⟨t', hl', _, _, hst'⟩ := hlookL t0 ht0L
      refine ⟨t', by rw [← ht0id]; exact hl', ?_⟩
      intro hq'
      rw [hst'] at hq'
      by_cases hh : has_handler (process_next_tasks s.mgr).1 t0.task_type = true
      · rw [if_pos hh] at hq'
        exact TaskStatus.noConfusion hq'
      · rw [if_neg hh] at hq'
        exact TaskStatus.noConfusion hq'
    · refine ⟨t, by rw [hother _ hmem]; exact hgt, ?_⟩
      intro hst
      exact depsCompleted_mono (himp hst) hC
  · have hqpost : (tickS s).mgr.task_queue = q' := by
      rw [tickS_mgr, tickM, da_queue, hfst]
    rw [hqpost]
    exact h.qnd.sublist (List.Sublist.map _ hsub)
  · intro id' t' hgt' hip'
    by_cases hmem : id' ∈ (process_next_tasks s.mgr).2.map Task.id
    · obtain ⟨t0, ht0L, ht0id⟩ := List.mem_map.mp hmem
      obtain ⟨hg0, hst0, e0, he0, he0id⟩ := hmemL t0 ht0L
      obtain ⟨t1, hgt1, himp1⟩ := h.qwf e0 he0
      rw [he0id, hg0] at hgt1
      have ht1 : t1 = t0 := (Option.some.injEq .. ▸ hgt1).symm
      have hdc0 : depsCompleted s.mgr t0 := by
        rw [← ht1]
        exact himp1 (by rw [ht1]; exact hst0)
      obtain ⟨t2, hl2, _, hdep2, _⟩ := hlookL t0 ht0L
      rw [ht0id] at hl2
      rw [hgt' ] at hl2
      have ht2 : t' = t2 := Option.some.injEq .. ▸ hl2
      have hdeps : t'.dependencies = t0.dependencies := by
        rw [ht2]
        exact hdep2
      intro dep hdep
      rw [hdeps] at hdep
      obtain ⟨d, hd, hdc⟩ := hdc0 dep hdep
      exact ⟨d, hC dep d hd hdc, hdc⟩
    · rw [hother _ hmem] at hgt'
      exact depsCompleted_mono (h.ipd id' t' hgt' hip') hC

theorem DFInv_step {s s' : SchedState} (hstep : StepDF s s') (h : DFInv s) : DFInv s' := by
  cases hstep with
  | submit task hq hfresh => exact DFInv_submit task hq hfresh h
  | tick => exact DFInv_tick h
  | finish id outcome hu => exact DFInv_finish id outcome hu h
  | cancel id => exact DFInv_cancel id h

theorem DFInv_init (n : Nat) (hs : List String) : DFInv (initState n hs) := by
  refine ⟨?_, ?_, ?_, ?_, ?_, ?_, ?_⟩
  · simp [keysND, initState, initMgr]
  · intro p hp
    simp [initState, initMgr] at hp
  · intro id hid
    simp [initState] at hid
  · simp [initState]
  · intro e he
    simp [initState, initMgr] at he
  · simp [initState, initMgr]
  · intro id t hgt
    simp [get_task, initState, initMgr, lookupTask] at hgt

theorem DFInv_reachable {n : Nat} {hs : List String} {s : SchedState}
    (h : ReachableDF n hs s) : DFInv s := by
  induction h with
  | refl => exact DFInv_init n hs
  | tail hr hstep ih => exact DFInv_step hstep ih

/-! ### Claim theorems -/

/-- C1: at every reachable state of the scheduler, under any interleaving of
submissions, dispatcher ticks, task completions (and cancellations), the
number of tasks whose status is IN_PROGRESS is at most max_concurrent_tasks:
the concurrency budget is a hard ceiling, never exceeded. -/
theorem c1_in_progress_bounded (n : Nat) (hs : List String) (s : SchedState)
    (h : Reachable n hs s) : countInProgress s.mgr ≤ s.mgr.max_concurrent_tasks :=
  le_trans (countInProgress_le s.mgr (C1Inv_reachable h)) (C1Inv_reachable h).rbd

/-- Concrete reachable state used by the C1 witness: one submission and one
dispatcher tick from a fresh manager with budget 2. -/
def c1wState : SchedState :=
  tickS { mgr := (enqueue (initState 2 ["default"]).mgr
    (baseTask "a" "x" 1 [] TaskStatus.QUEUED)).1, units := (initState 2 ["default"]).units }

/-- Witness for C1 at a concrete reachable state. -/
theorem c1_witness : countInProgress c1wState.mgr ≤ c1wState.mgr.max_concurrent_tasks :=
  c1_in_progress_bounded 2 ["default"] c1wState
    (Relation.ReflTransGen.tail
      (Relation.ReflTransGen.tail Relation.ReflTransGen.refl
        (Step.submit (initState 2 ["default"]) (baseTask "a" "x" 1 [] TaskStatus.QUEUED) rfl))
      (Step.tick _))

/-- C2: for entries simultaneously present in the ready queue, the dispatcher
pop (heappop, the primitive used by _process_next_tasks) never returns B's
entry while A's entry is still present, when A has strictly higher priority,
or equal priority and an earlier push timestamp (pushes receive strictly
increasing timestamps from the clock): so A is popped before B, with FIFO
tie-break among equal priorities. -/
theorem c2_priority_fifo (A B : Task) (cA cB : Nat) (q rest : List QueueEntry)
    (hA : (⟨-A.priority, cA, A.id⟩ : QueueEntry) ∈ q)
    (horder : B.priority < A.priority ∨ (A.priority = B.priority ∧ cA < cB)) :
    heappop q ≠ some (⟨-B.priority, cB, B.id⟩, rest) := by
  intro hpop
  have hmin := heappop_min hpop _ hA
  have hlt : entryLt (⟨-A.priority, cA, A.id⟩ : QueueEntry) ⟨-B.priority, cB, B.id⟩ := by
    rcases horder with h1 | ⟨h1, h2⟩
    · exact Or.inl (by simp only; omega)
    · exact Or.inr ⟨by simp only; omega, Or.inl h2⟩
  have h2 := entryLt_not_le hlt
  rw [hmin] at h2
  exact Bool.noConfusion h2

/-- A higher-priority task for the C2 witness. -/
def c2A : Task := baseTask "a" "x" 2 [] TaskStatus.QUEUED

/-- A lower-priority task pushed earlier for the C2 witness. -/
def c2B : Task := baseTask "b" "x" 1 [] TaskStatus.QUEUED

/-- Witness for C2: in a queue holding B's entry (pushed at time 5) and A's
(pushed at time 3, higher priority), the pop does not return B. -/
theorem c2_witness :
    heappop [(⟨-c2B.priority, 5, c2B.id⟩ : QueueEntry), ⟨-c2A.priority, 3, c2A.id⟩] ≠
      some (⟨-c2B.priority, 5, c2B.id⟩, [(⟨-c2A.priority, 3, c2A.id⟩ : QueueEntry)]) :=
  c2_priority_fifo c2A c2B 3 5 _ _ (by decide) (by decide)

/-- A terminal (COMPLETED) task used by the C3 counterexample. -/
def c3tDone : Task :=
  { baseTask "x" "ty" 1 [] TaskStatus.COMPLETED with
      completed_at := some 5, results := some [("k", "v")] }

/-- C3 counterexample: a further status-transition request on a COMPLETED
(terminal) task is not rejected as a no-op: Task.update_status applies it,
changing status (back to QUEUED here) and updated_at, so the terminal state
is reversed. -/
theorem c3_counterexample :
    c3tDone.status = TaskStatus.COMPLETED ∧
    ((c3tDone.update_status TaskStatus.QUEUED none 10).1).status = TaskStatus.QUEUED ∧
    ((c3tDone.update_status TaskStatus.QUEUED none 10).1).status ≠ c3tDone.status ∧
    ((c3tDone.update_status TaskStatus.QUEUED none 10).1).updated_at ≠
      c3tDone.updated_at := by
  decide

/-- Store used by the C3 witness. -/
def c3m : TaskQueueManager :=
  { tasks := [("x", c3tDone)], task_queue := [], running_tasks := [],
    completed_tasks := [], task_handlers := ["default"], max_concurrent_tasks := 5,
    clock := 10 }

/-- C3 amended: a status-transition request on a task in any state, terminal
included, is applied unconditionally and never throws: Task.update_status
always sets the requested status, and update_task_status on a stored task
always stores the requested status back. -/
theorem c3_transitions_always_applied (t : Task) (st : TaskStatus) (err : Option String)
    (c : Nat) (m : TaskQueueManager) (id : String) (res : Option AnyMap) :
    ((t.update_status st err c).1).status = st ∧
    (∀ t0, get_task m id = some t0 →
      ∃ t', get_task (update_task_status m id st res err).1 id = some t' ∧
        t'.status = st) := by
  refine ⟨(update_status_fields t st err c).1, ?_⟩
  intro t0 hg
  obtain ⟨t', hl, h1, _, _⟩ := uts_lookup_self m id st res err hg
  exact ⟨t', hl, h1⟩

/-- Witness for the amended C3 at the COMPLETED task c3tDone: the QUEUED
request is applied through the manager. -/
theorem c3_witness :
    ∃ t', get_task (update_task_status c3m "x" TaskStatus.QUEUED none none).1 "x" =
      some t' ∧ t'.status = TaskStatus.QUEUED :=
  (c3_transitions_always_applied c3tDone TaskStatus.QUEUED none 10 c3m "x" none).2
    c3tDone (by decide)

/-- A fresh manager used by concrete counterexamples. -/
def mEmpty : TaskQueueManager := initMgr 5 ["default"]

/-- A task whose dependency list names an id unknown to the store. -/
def c5U : Task := baseTask "u" "x" 1 ["ghost"] TaskStatus.QUEUED

/-- C5 counterexample: submitting a task whose dependencies name the unknown
id "ghost" is not rejected: enqueue stores the task (total function, no
InvalidDependencyError exists in the code) and merely never pushes it to the
ready queue. -/
theorem c5_counterexample :
    get_task mEmpty "ghost" = none ∧
    get_task (enqueue mEmpty c5U).1 "u" = some c5U ∧
    (enqueue mEmpty c5U).1.task_queue = [] := by
  decide

/-- C5 amended: a submission referencing an unknown dependency id is accepted
silently: the task is stored under its id, and (having a dependency that the
store cannot resolve) it is not added to the ready queue, so it can never be
dispatched until the dependency appears and completes (silent starvation
rather than an InvalidDependencyError). -/
theorem c5_unknown_dep_accepted (m : TaskQueueManager) (task : Task) (dep : String)
    (hdep : dep ∈ task.dependencies)
    (hunk : lookupTask (setTask m.tasks task.id task) dep = none) :
    get_task (enqueue m task).1 task.id = some task ∧
    (enqueue m task).1.task_queue = m.task_queue := by
  refine ⟨enqueue_lookup_self m task, ?_⟩
  have hmet : all_dependencies_met
      { m with tasks := setTask m.tasks task.id task } task = false := by
    unfold all_dependencies_met
    simp only [List.all_eq_false]
    refine ⟨dep, hdep, ?_⟩
    simp only [hunk]
    simp
  have hdeps_ne : ¬ task.dependencies = [] := by
    intro hc
    rw [hc] at hdep
    exact List.not_mem_nil dep hdep
  rcases enqueue_queue m task with h | ⟨_, hc⟩
  · exact h
  · rcases hc with h1 | h1
    · exact absurd h1 hdeps_ne
    · rw [hmet] at h1
      exact Bool.noConfusion h1

/-- Witness for the amended C5 at the concrete unknown-dependency submission. -/
theorem c5_witness :
    get_task (enqueue mEmpty c5U).1 c5U.id = some c5U ∧
    (enqueue mEmpty c5U).1.task_queue = mEmpty.task_queue :=
  c5_unknown_dep_accepted mEmpty c5U "ghost" (by decide) (by decide)

/-- First submission with id "a" for the C6 counterexample. -/
def c6t1 : Task := baseTask "a" "x" 1 [] TaskStatus.QUEUED

/-- Second, different submission with the same id "a". -/
def c6t2 : Task := baseTask "a" "y" 2 [] TaskStatus.QUEUED

/-- C6 counterexample: submitting a task whose id already exists does not
fail with DuplicateTaskError (no such error exists; enqueue is total) and the
previously stored task is overwritten: after the second submission the store
holds the second task, not the first. -/
theorem c6_counterexample :
    get_task (enqueue mEmpty c6t1).1 "a" = some c6t1 ∧
    get_task (enqueue (enqueue mEmpty c6t1).1 c6t2).1 "a" = some c6t2 ∧
    c6t2 ≠ c6t1 := by
  decide

/-- C6 amended: enqueue stores the submitted task under its id
unconditionally (dict assignment, last write wins, never an error); entries
under other ids are untouched. -/
theorem c6_enqueue_overwrites (m : TaskQueueManager) (task : Task) :
    get_task (enqueue m task).1 task.id = some task ∧
    ∀ id', id' ≠ task.id → get_task (enqueue m task).1 id' = get_task m id' :=
  ⟨enqueue_lookup_self m task, fun id' h => enqueue_lookup_other m task id' h⟩

/-- Witness for the amended C6 at a concrete resubmission. -/
theorem c6_witness :
    get_task (enqueue (enqueue mEmpty c6t1).1 c6t2).1 c6t2.id = some c6t2 ∧
    get_task (enqueue mEmpty c6t1).1 "z" = get_task mEmpty "z" :=
  ⟨(c6_enqueue_overwrites (enqueue mEmpty c6t1).1 c6t2).1,
    (c6_enqueue_overwrites mEmpty c6t1).2 "z" (by decide)⟩

/-- The task stored in IN_PROGRESS state for the C7 counterexample. -/
def c7t : Task :=
  { baseTask "x" "ty" 1 [] TaskStatus.IN_PROGRESS with started_at := some 1 }

/-- Manager holding c7t, clock at 10, for the C7 counterexample. -/
def c7m : TaskQueueManager :=
  { tasks := [("x", c7t)], task_queue := [], running_tasks := ["x"],
    completed_tasks := [], task_handlers := ["default"], max_concurrent_tasks := 5,
    clock := 10 }

/-- C7 counterexample: a single transition to COMPLETED carrying results
stamps completed_at TWICE, not exactly once: update_task_status first calls
Task.update_status (stamping completed_at at clock 11), then add_results
calls Task.update_status again (restamping at 13); the stored task ends with
completed_at = 13, the second stamp. -/
theorem c7_counterexample :
    update_task_status_completed_writes c7m "x" TaskStatus.COMPLETED
      (some [("k", "v")]) none = 2 ∧
    ((c7t.update_status TaskStatus.COMPLETED none 10).1).completed_at = some 11 ∧
    ((get_task (update_task_status c7m "x" TaskStatus.COMPLETED (some [("k", "v")])
        none).1 "x").map Task.completed_at) = some (some 13) := by
  decide

/-- C7 amended: created_at is never touched by transitions; started_at is
written at most once (stamped on the first IN_PROGRESS transition, preserved
afterwards); but completed_at is stamped on every COMPLETED transition, and
in particular a single COMPLETED transition carrying results stamps it twice
(once directly, once again via add_results). -/
theorem c7_timestamp_discipline (t : Task) (st : TaskStatus) (err : Option String)
    (c v : Nat) (m : TaskQueueManager) (id : String) (r : AnyMap) :
    ((t.update_status st err c).1).created_at = t.created_at ∧
    (t.started_at = some v → ((t.update_status st err c).1).started_at = some v) ∧
    (t.started_at = none →
      ((t.update_status TaskStatus.IN_PROGRESS err c).1).started_at = some (c + 1)) ∧
    (∀ t0, get_task m id = some t0 → ¬ r = [] →
      update_task_status_completed_writes m id TaskStatus.COMPLETED (some r) none = 2) := by
  refine ⟨(update_status_fields t st err c).2.2.2.2.1, ?_, ?_, ?_⟩
  · intro hsv
    unfold Task.update_status
    dsimp only
    split_ifs with h1 h2 h3 <;> simp_all
  · intro hsn
    unfold Task.update_status
    dsimp only
    split_ifs with h1 <;> simp_all
  · intro t0 hg hr
    unfold update_task_status_completed_writes
    rw [hg]
    simp only [Task.update_status_completed_writes]
    simp [hr]

/-- Witness for the amended C7 at the concrete completion-with-results. -/
theorem c7_witness :
    update_task_status_completed_writes c7m "x" TaskStatus.COMPLETED
      (some [("k", "v")]) none = 2 :=
  (c7_timestamp_discipline c7t TaskStatus.COMPLETED none 10 1 c7m "x"
    [("k", "v")]).2.2.2 c7t (by decide) (by decide)

/-- C9: cancel_task returns true exactly when the task exists with status
QUEUED, in which case its stored status becomes CANCELLED; in every other
case (unknown id or any other status) it returns false and the manager state
is completely unchanged. -/
theorem c9_cancel_semantics (m : TaskQueueManager) (id : String) :
    ((cancel_task m id).2 = true ↔
      ∃ t, get_task m id = some t ∧ t.status = TaskStatus.QUEUED) ∧
    ((cancel_task m id).2 = true →
      ∃ t', get_task (cancel_task m id).1 id = some t' ∧
        t'.status = TaskStatus.CANCELLED) ∧
    ((cancel_task m id).2 = false → (cancel_task m id).1 = m) := by
  cases hg : get_task m id with
  | none =>
    rw [cancel_not_found m id hg]
    refine ⟨?_, ?_, ?_⟩
    · simp only [Bool.false_eq_true, false_iff]
      intro ⟨t, ht, _⟩
      exact Option.noConfusion ht
    · intro hc
      exact absurd hc (by simp)
    · intro _
      rfl
  | some t =>
    by_cases hst : t.status = TaskStatus.QUEUED
    · rw [cancel_queued m id hg hst]
      refine ⟨?_, ?_, ?_⟩
      · simp only [true_iff]
        exact ⟨t, rfl, hst⟩
      · intro _
        obtain ⟨t', hl, h1, _, _⟩ :=
          uts_lookup_self m id TaskStatus.CANCELLED none none hg
        exact ⟨t', hl, h1⟩
      · intro hc
        exact absurd hc (by simp)
    · rw [cancel_not_queued m id hg hst]
      refine ⟨?_, ?_, ?_⟩
      · simp only [Bool.false_eq_true, false_iff]
        intro ⟨t'', ht'', hst''⟩
        have : t = t'' := Option.some.injEq .. ▸ ht''
        rw [← this] at hst''
        exact hst hst''
      · intro hc
        exact absurd hc (by simp)
      · intro _
        rfl

/-- Manager with one QUEUED task for the C9 witness. -/
def c9m : TaskQueueManager :=
  { tasks := [("q", baseTask "q" "x" 1 [] TaskStatus.QUEUED)],
    task_queue := [⟨-1, 0, "q"⟩], running_tasks := [], completed_tasks := [],
    task_handlers := ["default"], max_concurrent_tasks := 5, clock := 1 }

/-- Witness for C9: cancelling a QUEUED task stores CANCELLED; cancelling an
unknown id leaves the manager unchanged. -/
theorem c9_witness :
    (∃ t', get_task (cancel_task c9m "q").1 "q" = some t' ∧
      t'.status = TaskStatus.CANCELLED) ∧
    (cancel_task mEmpty "z").1 = mEmpty :=
  ⟨(c9_cancel_semantics c9m "q").2.1 (by decide),
    (c9_cancel_semantics mEmpty "z").2.2 (by decide)⟩

theorem update_status_failed_error (t : Task) (msg : String) (c : Nat) :
    ((t.update_status TaskStatus.FAILED (some msg) c).1).error = some msg := by
  unfold Task.update_status
  dsimp only
  split_ifs with h1 h2 h3 <;> simp_all

theorem uts_lookup_self_W (m : TaskQueueManager) (id : String) (st : TaskStatus)
    (res : Option AnyMap) (err : Option String) {t : Task}
    (hg : get_task m id = some t) :
    get_task (update_task_status m id st res err).1 id =
      some (uts_write m id t st res err).2 := by
  cases hterm : isTerminal st with
  | true =>
    rw [uts_term_eq m id st res err hg hterm, get_task, cdt_tasks]
    exact lookupTask_setTask_self _ _ _
  | false =>
    rw [uts_nonterm_eq m id st res err hg hterm, get_task]
    rw [show ((uts_write m id t st res err).1, some (uts_write m id t st res err).2).1.tasks =
      setTask m.tasks id (uts_write m id t st res err).2 from rfl]
    exact lookupTask_setTask_self _ _ _

/-- C10: when the awaited handler raises, the exception is caught inside the
execution unit: the task transitions to FAILED, the stringified exception is
recorded in its error field (inside the fixed message built at
queue_manager line 316), and nothing propagates to the dispatcher:
execute_task_finish is a total function into manager states for every
outcome, so the dispatch loop cannot terminate due to a task failure. -/
theorem c10_handler_error_contained (m : TaskQueueManager) (id : String) (e : String)
    {t : Task} (hg : get_task m id = some t) :
    ∃ t', get_task (execute_task_finish m id (Except.error e)) id = some t' ∧
      t'.status = TaskStatus.FAILED ∧
      t'.error = some ("Error executing task " ++ id ++ ": " ++ e) := by
  unfold execute_task_finish
  dsimp only
  refine ⟨(uts_write m id t TaskStatus.FAILED none
    (some ("Error executing task " ++ id ++ ": " ++ e))).2, ?_, ?_, ?_⟩
  · exact uts_lookup_self_W m id TaskStatus.FAILED none _ hg
  · exact (uts_write_status m id t TaskStatus.FAILED none _).1
  · rw [show (uts_write m id t TaskStatus.FAILED none
        (some ("Error executing task " ++ id ++ ": " ++ e))).2 =
      (t.update_status TaskStatus.FAILED
        (some ("Error executing task " ++ id ++ ": " ++ e)) m.clock).1 from rfl]
    exact update_status_failed_error t _ m.clock

/-- Witness for C10: a concrete raising handler fails its task with the
recorded message. -/
theorem c10_witness :
    ∃ t', get_task (execute_task_finish c7m "x" (Except.error "boom")) "x" = some t' ∧
      t'.status = TaskStatus.FAILED ∧
      t'.error = some ("Error executing task " ++ "x" ++ ": " ++ "boom") :=
  c10_handler_error_contained c7m "x" "boom" (show get_task c7m "x" = some c7t by decide)

/-- Store for the C8 scenario: task "d" COMPLETED, task "t" QUEUED depending
on "d". -/
def c8m : TaskQueueManager :=
  { tasks := [("d", baseTask "d" "x" 1 [] TaskStatus.COMPLETED),
              ("t", baseTask "t" "x" 1 ["d"] TaskStatus.QUEUED)],
    task_queue := [], running_tasks := [], completed_tasks := [],
    task_handlers := ["default"], max_concurrent_tasks := 5, clock := 0 }

/-- The state after two redundant dependents checks for "d". -/
def c8m2 : TaskQueueManager := check_dependent_tasks (check_dependent_tasks c8m "d") "d"

/-- Scheduler state holding the doubled queue, no units in flight. -/
def c8s : SchedState := { mgr := c8m2, units := [] }

/-- C8 counterexample: notifying the dependents check twice for the same
completed id "d" pushes two ready-queue entries for "t", and the next
dispatcher tick then pops both and spawns TWO execution units for the single
task "t" (it is dispatched more than once as a consequence of the duplicate
entries). -/
theorem c8_counterexample :
    c8m2.task_queue = [⟨-1, 1, "t"⟩, ⟨-1, 0, "t"⟩] ∧
    ((process_next_tasks c8m2).2.map Task.id) = ["t", "t"] ∧
    (tickS c8s).units = ["t", "t"] := by
  decide

/-- C8 amended: the dependents check itself is idempotent as a computation:
it never mutates the task store or the running set, so a redundant re-run
identifies exactly the same dependent set with the same readiness verdicts;
but each run pushes fresh ready-queue entries, and duplicated entries can
make one tick dispatch the same task twice (two execution units), so
redundant notification is not scheduling-neutral. -/
theorem c8_check_idempotent_but_duplicates :
    (∀ (m : TaskQueueManager) (d : String),
      (check_dependent_tasks m d).tasks = m.tasks ∧
      (check_dependent_tasks m d).running_tasks = m.running_tasks ∧
      dependentList (check_dependent_tasks m d) d = dependentList m d ∧
      ∀ t, all_dependencies_met (check_dependent_tasks m d) t =
        all_dependencies_met m t) ∧
    (tickS c8s).units = ["t", "t"] := by
  constructor
  · intro m d
    refine ⟨cdt_tasks m d, cdt_running m d, ?_, ?_⟩
    · unfold dependentList
      rw [cdt_tasks]
    · intro t
      exact all_dependencies_met_congr (cdt_tasks m d) t
  · decide

/-- Independent task submitted (twice) under id "a" in the C4 scenario. -/
def c4A : Task := baseTask "a" "x" 1 [] TaskStatus.QUEUED

/-- Dependent task under id "t" with dependency on "a". -/
def c4T : Task := baseTask "t" "x" 1 ["a"] TaskStatus.QUEUED

/-- The C4 counterexample execution, step by step. -/
def c4s0 : SchedState := initState 2 ["default"]

def c4s1 : SchedState := { mgr := (enqueue c4s0.mgr c4A).1, units := c4s0.units }

def c4s2 : SchedState := { mgr := (enqueue c4s1.mgr c4A).1, units := c4s1.units }

def c4s3 : SchedState := { mgr := (enqueue c4s2.mgr c4T).1, units := c4s2.units }

def c4s4 : SchedState := tickS c4s3

def c4s5 : SchedState :=
  { mgr := execute_task_finish c4s4.mgr "a" (Except.ok [("r", "1")]),
    units := c4s4.units.erase "a" }

def c4s6 : SchedState :=
  { mgr := execute_task_finish c4s5.mgr "a" (Except.error "boom"),
    units := c4s5.units.erase "a" }

def c4s7 : SchedState := tickS c4s6

/-- C4 counterexample: a reachable execution in which task "t" (non-empty
dependencies, namely "a") is transitioned to IN_PROGRESS while its
dependency "a" has status FAILED, not COMPLETED. The id "a" is submitted
twice (the code accepts this, see C6), so two queue entries exist for it;
one tick dispatches it twice; the first unit completes "a" (readying "t"),
the second unit then fails "a"; the next tick dispatches "t" anyway. -/
theorem c4_counterexample :
    Reachable 2 ["default"] c4s7 ∧
    (get_task c4s7.mgr "t").map Task.status = some TaskStatus.IN_PROGRESS ∧
    (get_task c4s7.mgr "t").map Task.dependencies = some ["a"] ∧
    (get_task c4s7.mgr "a").map Task.status = some TaskStatus.FAILED := by
  refine ⟨?_, by decide, by decide, by decide⟩
  have h01 : Step c4s0 c4s1 := Step.submit c4s0 c4A rfl
  have h12 : Step c4s1 c4s2 := Step.submit c4s1 c4A rfl
  have h23 : Step c4s2 c4s3 := Step.submit c4s2 c4T rfl
  have h34 : Step c4s3 c4s4 := Step.tick c4s3
  have h45 : Step c4s4 c4s5 :=
    Step.finish c4s4 "a" (Except.ok [("r", "1")]) (by decide)
  have h56 : Step c4s5 c4s6 :=
    Step.finish c4s5 "a" (Except.error "boom") (by decide)
  have h67 : Step c4s6 c4s7 := Step.tick c4s6
  exact Relation.ReflTransGen.tail
    (Relation.ReflTransGen.tail
      (Relation.ReflTransGen.tail
        (Relation.ReflTransGen.tail
          (Relation.ReflTransGen.tail
            (Relation.ReflTransGen.tail
              (Relation.ReflTransGen.tail Relation.ReflTransGen.refl h01)
              h12)
            h23)
          h34)
        h45)
      h56)
    h67

/-- C4 amended: provided every submission uses a fresh id (no overwriting of
an existing task, the duplicate-free restriction StepDF), in every reachable
state every IN_PROGRESS task has all of its dependencies COMPLETED; in
particular no task with a non-empty dependencies set is ever transitioned to
IN_PROGRESS while a dependency is not COMPLETED. -/
theorem c4_deps_completed_when_in_progress (n : Nat) (hs : List String)
    (s : SchedState) (h : ReachableDF n hs s) (id : String) (t : Task)
    (hgt : get_task s.mgr id = some t) (hip : t.status = TaskStatus.IN_PROGRESS) :
    ∀ dep ∈ t.dependencies, ∃ d, get_task s.mgr dep = some d ∧
      d.status = TaskStatus.COMPLETED :=
  (DFInv_reachable h).ipd id t hgt hip

/-- Independent task "d" for the C4 witness execution. -/
def c4wD : Task := baseTask "d" "x" 1 [] TaskStatus.QUEUED

/-- Dependent task "t" (dependency "d") for the C4 witness execution. -/
def c4wT : Task := baseTask "t" "x" 1 ["d"] TaskStatus.QUEUED

/-- The duplicate-free C4 witness execution, step by step. -/
def c4w0 : SchedState := initState 2 ["default"]

def c4w1 : SchedState := { mgr := (enqueue c4w0.mgr c4wD).1, units := c4w0.units }

def c4w2 : SchedState := tickS c4w1

def c4w3 : SchedState :=
  { mgr := execute_task_finish c4w2.mgr "d" (Except.ok [("r", "1")]),
    units := c4w2.units.erase "d" }

def c4w4 : SchedState := { mgr := (enqueue c4w3.mgr c4wT).1, units := c4w3.units }

def c4w5 : SchedState := tickS c4w4

/-- The stored state of task "t" after it is dispatched in the witness run. -/
def c4wT5 : Task :=
  { id := "t", user_id := "u", session_id := "s", created_at := 0,
    updated_at := some 8, started_at := some 9, completed_at := none,
    status := TaskStatus.IN_PROGRESS, task_type := "x", description := "",
    parameters := [], results := none, error := none, priority := 1,
    estimated_duration := none, dependencies := ["d"], assigned_agent := none }

/-- Witness for the amended C4: in the concrete duplicate-free run, when "t"
is IN_PROGRESS its dependency "d" is COMPLETED. -/
theorem c4_witness :
    ∃ d, get_task c4w5.mgr "d" = some d ∧ d.status = TaskStatus.COMPLETED := by
  have h01 : StepDF c4w0 c4w1 := StepDF.submit c4w0 c4wD rfl (by decide)
  have h12 : StepDF c4w1 c4w2 := StepDF.tick c4w1
  have h23 : StepDF c4w2 c4w3 :=
    StepDF.finish c4w2 "d" (Except.ok [("r", "1")]) (by decide)
  have h34 : StepDF c4w3 c4w4 := StepDF.submit c4w3 c4wT rfl (by decide)
  have h45 : StepDF c4w4 c4w5 := StepDF.tick c4w4
  have hreach : ReachableDF 2 ["default"] c4w5 :=
    Relation.ReflTransGen.tail
      (Relation.ReflTransGen.tail
        (Relation.ReflTransGen.tail
          (Relation.ReflTransGen.tail
            (Relation.ReflTransGen.tail Relation.ReflTransGen.refl h01)
            h12)
          h23)
        h34)
      h45
  exact c4_deps_completed_when_in_progress 2 ["default"] c4w5 hreach "t" c4wT5
    (by decide) (by decide) "d" (by decide)

end TaskQueue
